import Mathlib

/-!
Verification of the Crestview task-scheduling dashboard.

The TypeScript sources are shallowly embedded here:
* JavaScript strings are `List Char` (`JStr`); the string operations the code
  uses (`split`, `padStart`, `toLowerCase`, `includes`, `Number(...)`,
  `String(...)`) are modelled character by character.
* JavaScript numbers appearing in the time arithmetic are modelled as
  `Option Int`, with `none` playing the role of `NaN` (every arithmetic
  operation propagates it); all values arising in the code are integers.
  `Number(s)` is modelled exactly on the decimal-integer strings the code
  produces ("", digits, optional leading minus sign); all other strings map to
  `none`, as the exotic numeric forms (hex, exponents, fractions) never arise
  from the embedded code paths.
* Database writes are modelled as pure transformations of explicit record
  lists.
-/

namespace Crestview

/-- JavaScript strings, modelled as lists of characters. -/
abbrev JStr := List Char

/-- Coerce a Lean string literal to the character-list model. -/
def str (s : String) : JStr := s.data

/-- Is `c` a decimal digit (`0`-`9`)? -/
def isDigitCh (c : Char) : Bool := 48 ≤ c.toNat && c.toNat ≤ 57

/-- Numeric value of a digit character. -/
def digitVal (c : Char) : Nat := c.toNat - 48

/-- The decimal digit character for `n < 10` (JS `String(n)` for one digit). -/
def digitChar (n : Nat) : Char :=
  match n with
  | 0 => '0' | 1 => '1' | 2 => '2' | 3 => '3' | 4 => '4'
  | 5 => '5' | 6 => '6' | 7 => '7' | 8 => '8' | 9 => '9'
  | _ => '*'

/-- Decimal digits, fuel-based so that it reduces by evaluation.
For `n < fuel` the fuel never runs out. -/
def natDigitsF : Nat → Nat → List Char
  | 0, _ => []
  | fuel + 1, n =>
      if n < 10 then [digitChar n]
      else natDigitsF fuel (n / 10) ++ [digitChar (n % 10)]

/-- Decimal digits of a natural number, most significant first
(JS `String(n)` for a non-negative integer). -/
def natDigits (n : Nat) : List Char := natDigitsF (n + 1) n

/-- Value of a digit string (most significant first), accumulator form. -/
def parseDigitsAux (acc : Nat) : List Char → Nat
  | [] => acc
  | c :: cs => parseDigitsAux (acc * 10 + digitVal c) cs

/-- JavaScript numbers in the embedded code: `none` is `NaN`. -/
abbrev JsNum := Option Int

/-- JS `Number(s)` on the string forms produced by the embedded code:
the empty string is `0`, a non-empty digit string is its value, a minus sign
followed by a non-empty digit string is the negated value, and everything
else (including all forms that never arise here) is `NaN`. -/
def jsNumber (s : JStr) : JsNum :=
  if s = [] then some 0
  else if s.all isDigitCh then some ((parseDigitsAux 0 s : Nat) : Int)
  else
    match s with
    | '-' :: rest =>
        if rest ≠ [] && rest.all isDigitCh then
          some (-((parseDigitsAux 0 rest : Nat) : Int))
        else none
    | _ => none

/-- NaN-propagating addition. -/
def jadd (a b : JsNum) : JsNum :=
  match a, b with
  | some x, some y => some (x + y)
  | _, _ => none

/-- NaN-propagating subtraction. -/
def jsub (a b : JsNum) : JsNum :=
  match a, b with
  | some x, some y => some (x - y)
  | _, _ => none

/-- JS `s.split(sep)` for a one-character separator: keeps empty fields,
`"".split(c) = [""]`. -/
def jsSplit (sep : Char) : JStr → List JStr
  | [] => [[]]
  | c :: rest =>
      if c = sep then [] :: jsSplit sep rest
      else
        match jsSplit sep rest with
        | [] => [[c]]
        | p :: ps => (c :: p) :: ps

/-- JS `String(x)` for an integer-or-NaN value. -/
def jsNumToStr (x : JsNum) : JStr :=
  match x with
  | none => str "NaN"
  | some i => if i < 0 then '-' :: natDigits i.natAbs else natDigits i.toNat

/-- JS `s.padStart(2, '0')`. -/
def padStart2 (l : JStr) : JStr :=
  if 2 ≤ l.length then l
  else if l.length = 1 then '0' :: l
  else ['0', '0']

/-- JS `Math.floor(x / 60)` (NaN-propagating; `Int.fdiv` is floor division). -/
def jsFloorDiv60 (x : JsNum) : JsNum := x.map (fun i => Int.fdiv i 60)

/-- JS `x % 60` (remainder with the dividend's sign; NaN-propagating). -/
def jsMod60 (x : JsNum) : JsNum := x.map (fun i => Int.tmod i 60)

/-- `formatTime` from `src/app/dashboard/page.tsx`:
`${String(Math.floor(t/60)).padStart(2,'0')}:${String(t%60).padStart(2,'0')}`. -/
def formatTime (t : JsNum) : JStr :=
  padStart2 (jsNumToStr (jsFloorDiv60 t)) ++ ':' :: padStart2 (jsNumToStr (jsMod60 t))

/-- `getMinutes` from `src/app/dashboard/page.tsx`:
`const [h, m] = timeStr.split(':').map(Number); return h * 60 + m;`
(a missing field destructures to `undefined`, and `Number(undefined)` is NaN). -/
def getMinutes (s : JStr) : JsNum :=
  let parts := jsSplit ':' s
  let h : JsNum := match parts.get? 0 with | some p => jsNumber p | none => none
  let m : JsNum := match parts.get? 1 with | some p => jsNumber p | none => none
  jadd (h.map (· * 60)) m

-- ### Schedule items and time-slot recalculation

/-- The `item_type` column: `task`, `break` (here `brk`), or `lunch`. -/
inductive ItemType where
  | task
  | brk
  | lunch
deriving DecidableEq, Repr

/-- A `schedule_items` row, as in `src/types/index.ts` (`ScheduleItem`). -/
structure ScheduleItem where
  id : JStr
  schedule_id : JStr
  task_id : Option JStr
  start_time : JStr
  end_time : JStr
  item_type : ItemType
  title : JStr
  completed : Bool
deriving DecidableEq, Repr

/-- Placeholder item used as the default for out-of-range list indexing. -/
def dItem : ScheduleItem :=
  { id := [], schedule_id := [], task_id := none, start_time := [], end_time := [],
    item_type := ItemType.brk, title := [], completed := false }

/-- The duration the code computes for an item:
`getMinutes(item.end_time) - getMinutes(item.start_time)`. -/
def duration (it : ScheduleItem) : JsNum :=
  jsub (getMinutes it.end_time) (getMinutes it.start_time)

/-- The body of the `items.map` closure in `recalculateTimeSlots`, with the
running `currentTime` cursor made explicit. -/
def recalcAux (cur : JsNum) : List ScheduleItem → List ScheduleItem
  | [] => []
  | it :: rest =>
      let d := duration it
      let cur2 := jadd cur d
      { it with start_time := formatTime cur, end_time := formatTime cur2 }
        :: recalcAux cur2 rest

/-- `recalculateTimeSlots` from `src/app/dashboard/page.tsx`: walk the items,
reassigning contiguous times from the fixed day start `9 * 60` (09:00). -/
def recalculateTimeSlots (items : List ScheduleItem) : List ScheduleItem :=
  recalcAux (some (9 * 60)) items

/-- Is `s` a well-formed zero-padded `"HH:MM"` string (hour 00-23, minute
00-59)? -/
def isValidHHMM (s : JStr) : Bool :=
  match s with
  | [a, b, c, d, e] =>
      isDigitCh a && isDigitCh b && (c == ':') && isDigitCh d && isDigitCh e
      && decide (digitVal a * 10 + digitVal b < 24)
      && decide (digitVal d * 10 + digitVal e < 60)
  | _ => false


-- ### Keyword extraction (src/lib/scheduler.ts, extractKeywordsFromTask)

/-- JS regex `\s` on the whitespace characters arising here. -/
def isWs (c : Char) : Bool := c == ' ' || c == '\t' || c == '\n' || c == '\r'

/-- JS regex `\w`: `[A-Za-z0-9_]`. -/
def isWordCh (c : Char) : Bool :=
  (48 ≤ c.toNat && c.toNat ≤ 57) || (65 ≤ c.toNat && c.toNat ≤ 90)
  || (97 ≤ c.toNat && c.toNat ≤ 122) || (c.toNat == 95)

/-- JS `toLowerCase` on one character (ASCII letters; other characters are
left unchanged, and any non-`\w` character is later stripped anyway). -/
def toLowerCh (c : Char) : Char :=
  if 65 ≤ c.toNat && c.toNat ≤ 90 then Char.ofNat (c.toNat + 32) else c

/-- JS `s.toLowerCase()`. -/
def toLowerStr (s : JStr) : JStr := s.map toLowerCh

/-- JS `s.split(/\s+/)`: split on maximal whitespace runs; an empty field
remains at an end that starts or finishes with whitespace. -/
def splitWs : JStr → List JStr
  | [] => [[]]
  | c :: rest =>
      if isWs c then
        match rest with
        | [] => [[], []]
        | c2 :: _ => if isWs c2 then splitWs rest else [] :: splitWs rest
      else
        match splitWs rest with
        | [] => [[c]]
        | p :: ps => (c :: p) :: ps

/-- JS `w.replace(/[^\w]/g, '')`. -/
def stripNonWord (s : JStr) : JStr := s.filter isWordCh

/-- The scheduler's stop-word list. -/
def commonWordsScheduler : List JStr :=
  [str "the", str "a", str "an", str "and", str "or", str "but", str "in",
   str "on", str "at", str "to", str "for", str "of", str "with", str "by"]

/-- The filter `w.length > 3 && !commonWords.has(w)`. -/
def keywordOk (w : JStr) : Bool := decide (3 < w.length ∧ w ∉ commonWordsScheduler)

/-- `[...new Set(words)]`: first occurrences in order, given the already-seen
elements. -/
def dedupAux (seen : List JStr) : List JStr → List JStr
  | [] => []
  | x :: xs => if x ∈ seen then dedupAux seen xs else x :: dedupAux (x :: seen) xs

/-- `extractKeywordsFromTask` from `src/lib/scheduler.ts`: lowercase
`` `${title} ${description || ''}` ``, split on whitespace, strip non-word
characters, drop short words and stop words, dedupe, take 5. -/
def extractKeywordsFromTask (title : JStr) (desc : Option JStr) : List JStr :=
  let text := toLowerStr (title ++ ' ' :: desc.getD [])
  let words := ((splitWs text).map stripNonWord).filter keywordOk
  (dedupAux [] words).take 5

/-- `keywords.join(' ')`, used to state re-extraction on the output. -/
def joinWords : List JStr → JStr
  | [] => []
  | [w] => w
  | w :: rest => w ++ ' ' :: joinWords rest

-- ### Task patterns (updateTaskPattern / handleCompleteTask)

/-- A `task_patterns` row, as in `src/types/index.ts` (`TaskPattern`). -/
structure TaskPattern where
  id : JStr
  task_keywords : List JStr
  average_duration : Nat
  times_scheduled : Nat
  times_completed : Nat
  completion_rate : Rat
deriving DecidableEq, Repr

/-- `p.task_keywords.some(kw => keywords.includes(kw))`: does the pattern's
keyword set intersect the given keywords? -/
def patternMatches (keywords : List JStr) (p : TaskPattern) : Bool :=
  p.task_keywords.any (fun kw => decide (kw ∈ keywords))

/-- JS `Math.round(a / b)` for naturals: floor of `a/b + 1/2`. -/
def roundDiv (a b : Nat) : Nat := (2 * a + b) / (2 * b)

/-- The pattern update performed on task completion
(`src/app/dashboard/page.tsx`, `handleCompleteTask`): guarded by
`keywords.length > 0 && actualMinutes > 0`, find the first pattern whose
keywords intersect, update its average/counters/rate in place (by id), or
insert a fresh pattern with counts 1 and rate 1.0. -/
def recordCompletion (freshId : JStr) (patterns : List TaskPattern)
    (keywords : List JStr) (actualMinutes : Nat) : List TaskPattern :=
  if keywords.length = 0 ∨ actualMinutes = 0 then patterns
  else
    match patterns.find? (patternMatches keywords) with
    | some p =>
        patterns.map (fun q =>
          if q.id = p.id then
            { q with
              average_duration :=
                roundDiv (p.average_duration * p.times_scheduled + actualMinutes)
                  (p.times_scheduled + 1),
              times_scheduled := p.times_scheduled + 1,
              times_completed := p.times_completed + 1,
              completion_rate := ((p.times_completed + 1 : Nat) : Rat)
                / ((p.times_scheduled + 1 : Nat) : Rat) }
          else q)
    | none =>
        patterns ++ [{ id := freshId, task_keywords := keywords,
                       average_duration := actualMinutes, times_scheduled := 1,
                       times_completed := 1, completion_rate := 1 }]

-- ### Tasks, blocks and the Schedule Assembler (generateScheduleForDay)

/-- Task priority tiers. -/
inductive Priority where
  | high
  | medium
  | low
deriving DecidableEq, Repr

/-- The fields of a `tasks` row that the scheduling logic reads. -/
structure Task where
  id : JStr
  title : JStr
  priority : Priority
  due_date : Option Nat
deriving DecidableEq, Repr

/-- A generated block as parsed from the model response. -/
structure Block where
  start_time : JStr
  end_time : JStr
  type : ItemType
  title : JStr
  estimated_duration : Nat
deriving DecidableEq, Repr

/-- A `schedule_items` row about to be inserted (no database id yet). -/
structure NewScheduleItem where
  schedule_id : JStr
  task_id : Option JStr
  start_time : JStr
  end_time : JStr
  item_type : ItemType
  title : JStr
  completed : Bool
deriving DecidableEq, Repr

/-- Placeholder block for out-of-range indexing. -/
def dBlock : Block :=
  { start_time := [], end_time := [], type := ItemType.brk, title := [],
    estimated_duration := 0 }

/-- Placeholder new item for out-of-range indexing. -/
def dNewItem : NewScheduleItem :=
  { schedule_id := [], task_id := none, start_time := [], end_time := [],
    item_type := ItemType.brk, title := [], completed := false }

/-- JS `hay.includes(needle)`: substring containment. -/
def jsIncludes (hay needle : JStr) : Bool :=
  match hay with
  | [] => needle.isEmpty
  | c :: t => needle.isPrefixOf (c :: t) || jsIncludes t needle

/-- The fuzzy title match of `generateScheduleForDay`:
`block.title.toLowerCase().includes(t.title.toLowerCase()) ||
 t.title.toLowerCase().includes(block.title.toLowerCase())`. -/
def matchBlockTask (blockTitle : JStr) (t : Task) : Bool :=
  jsIncludes (toLowerStr blockTitle) (toLowerStr t.title)
  || jsIncludes (toLowerStr t.title) (toLowerStr blockTitle)

/-- The `schedule.blocks.map` of `generateScheduleForDay`: each block becomes
an item carrying the block's times, type and title; `task_id` is
`matchingTask?.id || null` for the first fuzzy-matching task (an empty id is
falsy in JS, hence also null). -/
def assembleItems (scheduleId : JStr) (dayTasks : List Task)
    (blocks : List Block) : List NewScheduleItem :=
  blocks.map (fun b =>
    { schedule_id := scheduleId,
      task_id :=
        match dayTasks.find? (fun t => matchBlockTask b.title t) with
        | some t => if t.id = [] then none else some t.id
        | none => none,
      start_time := b.start_time,
      end_time := b.end_time,
      item_type := b.type,
      title := b.title,
      completed := false })

/-- Task status column. -/
inductive TaskStatus where
  | pending
  | scheduled
  | completed
  | rolled_over
deriving DecidableEq, Repr

/-- The slice of a `tasks` row relevant to status updates. -/
structure TaskRow where
  id : JStr
  status : TaskStatus
deriving DecidableEq, Repr

/-- Placeholder row for out-of-range indexing. -/
def dRow : TaskRow := { id := [], status := TaskStatus.pending }

/-- `supabase.from('tasks').update({status:'scheduled'}).in('id', taskIds)`:
every row whose id is among `taskIds` gets status `scheduled`. -/
def markTasksScheduled (taskIds : List JStr) (rows : List TaskRow) : List TaskRow :=
  rows.map (fun r =>
    if r.id ∈ taskIds then { r with status := TaskStatus.scheduled } else r)

/-- The end of `generateScheduleForDay`: `taskIds = dayTasks.map(t => t.id)`
are all marked `scheduled`. -/
def generateDayMarkScheduled (dayTasks : List Task) (rows : List TaskRow) :
    List TaskRow :=
  markTasksScheduled (dayTasks.map (fun t => t.id)) rows

-- ### Day Distributor and schedule generation (handleGenerateSchedule)

/-- Placeholder task for out-of-range indexing. -/
def dTask : Task :=
  { id := [], title := [], priority := Priority.low, due_date := none }

/-- The comparator table `{ high: 0, medium: 1, low: 2 }`. -/
def priorityRank : Priority → Nat
  | Priority.high => 0
  | Priority.medium => 1
  | Priority.low => 2

/-- Stable insertion into a rank-sorted list: an element goes before the
first strictly-later position with rank at least its own, so equal-rank
elements keep their original relative order (as JS `Array.prototype.sort`
guarantees since ES2019). -/
def insertByRank {α : Type} (r : α → Nat) (a : α) : List α → List α
  | [] => [a]
  | b :: bs => if r a ≤ r b then a :: b :: bs else b :: insertByRank r a bs

/-- Stable sort by rank, modelling `arr.sort((a, b) => rank a - rank b)`. -/
def sortByRank {α : Type} (r : α → Nat) : List α → List α
  | [] => []
  | a :: as => insertByRank r a (sortByRank r as)

/-- `tasks.sort(sortByPriority)` with the high=0/medium=1/low=2 table. -/
def sortByPriority (l : List Task) : List Task :=
  sortByRank (fun t => priorityRank t.priority) l

/-- The downward loop `for (let j = n-1; j >= 0; j--)` looking for the
largest index whose date is at most the due date. -/
def findLatestLEAux (dates : List Nat) (due : Nat) : Nat → Option Nat
  | 0 => none
  | j + 1 => if dates.getD j 0 ≤ due then some j else findLatestLEAux dates due j

/-- The day index a due-dated task is assigned to: the earliest day when the
due date is today or past, otherwise the latest day at most the due date,
falling back to the earliest day. -/
def assignedIndex (dates : List Nat) (today : Nat) (due : Nat) : Nat :=
  if due ≤ today then 0
  else (findLatestLEAux dates due dates.length).getD 0

/-- `tasksPerDay[i].push(t)`. -/
def pushAt : List (List Task) → Nat → Task → List (List Task)
  | [], _, _ => []
  | b :: bs, 0, t => (b ++ [t]) :: bs
  | b :: bs, i + 1, t => b :: pushAt bs i t

/-- The loop assigning due-dated tasks to their day buckets. -/
def distributeDue (dates : List Nat) (today : Nat)
    (buckets : List (List Task)) : List Task → List (List Task)
  | [] => buckets
  | t :: ts =>
      distributeDue dates today
        (pushAt buckets (assignedIndex dates today (t.due_date.getD 0)) t) ts

/-- `sortedNoDue.forEach((task, index) => push at index % n)`. -/
def distributeNoDue (n : Nat) (i : Nat) (buckets : List (List Task)) :
    List Task → List (List Task)
  | [] => buckets
  | t :: ts => distributeNoDue n (i + 1) (pushAt buckets (i % n) t) ts

/-- The distribution phase of `handleGenerateSchedule`
(`src/app/dashboard/page.tsx`, first version, lines 507-549): partition by
due-date presence, priority-sort each part, assign due-dated tasks by the
due-date rule, round-robin the rest. -/
def tasksPerDayPre (dates : List Nat) (today : Nat) (tasks : List Task) :
    List (List Task) :=
  let withDue := tasks.filter (fun t => t.due_date.isSome)
  let noDue := tasks.filter (fun t => !t.due_date.isSome)
  let b1 := distributeDue dates today (dates.map (fun _ => []))
    (sortByPriority withDue)
  distributeNoDue dates.length 0 b1 (sortByPriority noDue)

/-- The final per-day sort: `dayTasks.sort(sortByPriority)` for each bucket. -/
def tasksPerDay (dates : List Nat) (today : Nat) (tasks : List Task) :
    List (List Task) :=
  (tasksPerDayPre dates today tasks).map sortByPriority

/-- Calendar dates as day numbers, with day 0 a Monday.
`startOfWeek(today, { weekStartsOn: 1 })` plus the Mon-Fri offsets. -/
def getWeekDates (today : Nat) : List Nat :=
  [today - today % 7, today - today % 7 + 1, today - today % 7 + 2,
   today - today % 7 + 3, today - today % 7 + 4]

/-- `weekDates.filter(date => date >= today)` (dates normalised to
midnight). -/
def remainingDates (today : Nat) : List Nat :=
  (getWeekDates today).filter (fun d => today ≤ d)

/-- A `schedules` row. -/
structure ScheduleRow where
  id : JStr
  user_id : JStr
  schedule_date : Nat
deriving DecidableEq, Repr

/-- The persistent state touched by schedule generation. -/
structure Db where
  schedules : List ScheduleRow
  items : List NewScheduleItem
  taskRows : List TaskRow
deriving DecidableEq, Repr

/-- The per-day generation loop: skip empty days, otherwise run the
(network-backed) day generation `gen`. -/
def genDays (gen : Nat → List Task → Db → Db) :
    List Nat → List (List Task) → Db → Db
  | [], _, db => db
  | _ :: _, [], db => db
  | d :: ds, dayTasks :: rest, db =>
      genDays gen ds rest (if dayTasks.length = 0 then db else gen d dayTasks db)

/-- `handleGenerateSchedule`: guard on an empty task list, compute the
remaining weekdays, alert and stop with no writes when none remain,
otherwise distribute and generate day by day. The external, per-day
generation effect is the parameter `gen`. -/
def handleGenerateSchedule (gen : Nat → List Task → Db → Db) (today : Nat)
    (tasks : List Task) (db : Db) : Db × Option JStr :=
  if tasks.length = 0 then (db, some (str "Please add some tasks first!"))
  else
    let remaining := remainingDates today
    if remaining.length = 0 then (db, some (str "No remaining days in this week!"))
    else
      (genDays gen remaining (tasksPerDay remaining today tasks) db,
       some (str "Generated schedules from today through Friday!"))

-- ### Concrete sample data used by witnesses and counterexamples

/-- Concrete schedule item with duration 90 minutes, for witnesses. -/
def sampleItem : ScheduleItem :=
  { id := str "i1", schedule_id := str "s1", task_id := some (str "t1"),
    start_time := str "10:00", end_time := str "11:30",
    item_type := ItemType.task, title := str "Write report", completed := false }

/-- Items on which C10 as stated fails: the first item's times do not parse,
so the NaN cursor corrupts the second item's times. -/
def c10CexItems : List ScheduleItem :=
  [{ id := str "i1", schedule_id := str "s1", task_id := none,
     start_time := str "x", end_time := str "y",
     item_type := ItemType.brk, title := str "B", completed := false },
   { id := str "i2", schedule_id := str "s1", task_id := some (str "t1"),
     start_time := str "09:00", end_time := str "09:30",
     item_type := ItemType.task, title := str "T", completed := false }]

/-- Concrete pattern for the C3 witness: average 30 over 2 occurrences. -/
def samplePattern : TaskPattern :=
  { id := str "p1", task_keywords := [str "report"], average_duration := 30,
    times_scheduled := 2, times_completed := 1, completion_rate := 1 / 2 }

/-- Sample task whose title fuzzy-matches the lunch block's title. -/
def lunchTask : Task :=
  { id := str "t1", title := str "Lunch", priority := Priority.low, due_date := none }

/-- A lunch block titled "Lunch break". -/
def lunchBlock : Block :=
  { start_time := str "12:00", end_time := str "12:30", type := ItemType.lunch,
    title := str "Lunch break", estimated_duration := 30 }

/-- Sample task titled "Write report" for the C4/C9 witnesses. -/
def reportTask : Task :=
  { id := str "t1", title := str "Write report", priority := Priority.high,
    due_date := none }

/-- Sample generated block with exactly the task's title. -/
def reportBlock : Block :=
  { start_time := str "09:00", end_time := str "10:30", type := ItemType.task,
    title := str "Write report", estimated_duration := 90 }

/-- Sample high-priority task due on day 100, for the C2 witness. -/
def highDueTask : Task :=
  { id := str "h1", title := str "Urgent review", priority := Priority.high,
    due_date := some 100 }

-- ### Digit-string lemmas

lemma natDigitsF_congr :
    ∀ n f1 f2, n < f1 → n < f2 → natDigitsF f1 n = natDigitsF f2 n := by
  intro n
  induction n using Nat.strong_induction_on with
  | _ n ih =>
    intro f1 f2 h1 h2
    cases f1 with
    | zero => omega
    | succ g1 =>
      cases f2 with
      | zero => omega
      | succ g2 =>
        simp only [natDigitsF]
        by_cases h : n < 10
        · simp [h]
        · have hd : n / 10 < n := Nat.div_lt_self (by omega) (by omega)
          simp only [if_neg h]
          rw [ih (n / 10) hd g1 g2 (by omega) (by omega)]

lemma natDigits_unfold (n : Nat) :
    natDigits n = if n < 10 then [digitChar n]
      else natDigits (n / 10) ++ [digitChar (n % 10)] := by
  have e1 : natDigitsF (n + 1) n =
      if n < 10 then [digitChar n] else natDigitsF n (n / 10) ++ [digitChar (n % 10)] := rfl
  rw [natDigits, e1]
  by_cases h : n < 10
  · simp [h]
  · have hd : n / 10 < n := Nat.div_lt_self (by omega) (by omega)
    simp only [if_neg h]
    rw [natDigitsF_congr (n / 10) n (n / 10 + 1) hd (by omega)]
    rfl

lemma digitChar_isDigit : ∀ n < 10, isDigitCh (digitChar n) = true := by decide

lemma digitVal_digitChar : ∀ n < 10, digitVal (digitChar n) = n := by decide

lemma natDigits_all_digits (n : Nat) : (natDigits n).all isDigitCh = true := by
  induction n using Nat.strong_induction_on with
  | _ n ih =>
    rw [natDigits_unfold]
    by_cases h : n < 10
    · rw [if_pos h]
      simp only [List.all_cons, List.all_nil]
      rw [digitChar_isDigit n h]
      rfl
    · have hd : n / 10 < n := Nat.div_lt_self (by omega) (by omega)
      simp only [if_neg h, List.all_append, List.all_cons, List.all_nil]
      rw [ih (n / 10) hd, digitChar_isDigit (n % 10) (Nat.mod_lt n (by omega))]
      rfl

lemma natDigits_ne_nil (n : Nat) : natDigits n ≠ [] := by
  rw [natDigits_unfold]
  by_cases h : n < 10 <;> simp [h]

lemma parseDigitsAux_append (l1 l2 : List Char) (acc : Nat) :
    parseDigitsAux acc (l1 ++ l2) = parseDigitsAux (parseDigitsAux acc l1) l2 := by
  induction l1 generalizing acc with
  | nil => rfl
  | cons c cs ih =>
    show parseDigitsAux (acc * 10 + digitVal c) (cs ++ l2) =
      parseDigitsAux (parseDigitsAux (acc * 10 + digitVal c) cs) l2
    exact ih _

lemma parse_natDigits (n : Nat) : parseDigitsAux 0 (natDigits n) = n := by
  induction n using Nat.strong_induction_on with
  | _ n ih =>
    rw [natDigits_unfold]
    by_cases h : n < 10
    · rw [if_pos h,
        show parseDigitsAux 0 [digitChar n] = 0 * 10 + digitVal (digitChar n) from rfl,
        digitVal_digitChar n h]
      omega
    · have hd : n / 10 < n := Nat.div_lt_self (by omega) (by omega)
      rw [if_neg h, parseDigitsAux_append, ih (n / 10) hd]
      show n / 10 * 10 + digitVal (digitChar (n % 10)) = n
      rw [digitVal_digitChar (n % 10) (Nat.mod_lt n (by omega))]
      omega

lemma parse_cons_zero (l : List Char) :
    parseDigitsAux 0 ('0' :: l) = parseDigitsAux 0 l := by
  show parseDigitsAux (0 * 10 + digitVal '0') l = parseDigitsAux 0 l
  have h0 : 0 * 10 + digitVal '0' = 0 := by decide
  rw [h0]

lemma isDigitCh_ne_colon {c : Char} (h : isDigitCh c = true) : c ≠ ':' := by
  intro hc
  rw [hc] at h
  exact absurd h (by decide)

-- ### padStart2 lemmas

lemma padStart2_parse (l : List Char) :
    parseDigitsAux 0 (padStart2 l) = parseDigitsAux 0 l := by
  unfold padStart2
  by_cases h2 : 2 ≤ l.length
  · rw [if_pos h2]
  · rw [if_neg h2]
    by_cases h1 : l.length = 1
    · rw [if_pos h1, parse_cons_zero]
    · have hl : l = [] := List.length_eq_zero.mp (by omega)
      rw [if_neg h1, hl]
      decide

lemma padStart2_all_digits {l : List Char} (h : l.all isDigitCh = true) :
    (padStart2 l).all isDigitCh = true := by
  unfold padStart2
  by_cases h2 : 2 ≤ l.length
  · rw [if_pos h2]; exact h
  · rw [if_neg h2]
    by_cases h1 : l.length = 1
    · rw [if_pos h1]
      simp only [List.all_cons, h]
      rw [show isDigitCh '0' = true from by decide]
      rfl
    · rw [if_neg h1]; decide

lemma padStart2_ne_nil (l : List Char) : padStart2 l ≠ [] := by
  unfold padStart2
  by_cases h2 : 2 ≤ l.length
  · rw [if_pos h2]
    intro hl
    rw [hl] at h2
    exact absurd h2 (by decide)
  · rw [if_neg h2]
    by_cases h1 : l.length = 1
    · rw [if_pos h1]; simp
    · rw [if_neg h1]; simp

-- ### jsSplit lemmas

lemma jsSplit_no_sep {sep : Char} {a : JStr} (h : ∀ c ∈ a, c ≠ sep) :
    jsSplit sep a = [a] := by
  induction a with
  | nil => rfl
  | cons c cs ih =>
    have hc : c ≠ sep := h c (by simp)
    have ihr := ih (fun d hd => h d (by simp [hd]))
    simp [jsSplit, hc, ihr]

lemma jsSplit_append_sep {sep : Char} {a b : JStr} (h : ∀ c ∈ a, c ≠ sep) :
    jsSplit sep (a ++ sep :: b) = a :: jsSplit sep b := by
  induction a with
  | nil => simp [jsSplit]
  | cons c cs ih =>
    have hc : c ≠ sep := h c (by simp)
    have ihr := ih (fun d hd => h d (by simp [hd]))
    show (if c = sep then [] :: jsSplit sep (cs ++ sep :: b)
          else match jsSplit sep (cs ++ sep :: b) with
            | [] => [[c]]
            | p :: ps => (c :: p) :: ps) = (c :: cs) :: jsSplit sep b
    rw [if_neg hc, ihr]

-- ### jsNumber on digit strings

lemma jsNumber_digits {l : JStr} (hne : l ≠ []) (hd : l.all isDigitCh = true) :
    jsNumber l = some ((parseDigitsAux 0 l : Nat) : Int) := by
  simp [jsNumber, hne, hd]

/-- Round trip: parsing back a formatted non-negative minute count gives the
same count (`getMinutes (formatTime m) = m` for integer `m ≥ 0`). -/
lemma getMinutes_formatTime (m : Nat) :
    getMinutes (formatTime (some (m : Int))) = some (m : Int) := by
  have hfd : jsFloorDiv60 (some (m : Int)) = some ((m / 60 : Nat) : Int) := by
    exact congrArg some (Int.ofNat_fdiv m 60).symm
  have hmd : jsMod60 (some (m : Int)) = some ((m % 60 : Nat) : Int) := by
    exact congrArg some (Int.ofNat_tmod m 60).symm
  have hstr : ∀ k : Nat, jsNumToStr (some (k : Int)) = natDigits k := by
    intro k
    simp [jsNumToStr]
  set hf := padStart2 (natDigits (m / 60)) with hhf
  set mf := padStart2 (natDigits (m % 60)) with hmf
  have hfD : hf.all isDigitCh = true := padStart2_all_digits (natDigits_all_digits _)
  have mfD : mf.all isDigitCh = true := padStart2_all_digits (natDigits_all_digits _)
  have hfne : hf ≠ [] := padStart2_ne_nil _
  have mfne : mf ≠ [] := padStart2_ne_nil _
  have hform : formatTime (some (m : Int)) = hf ++ ':' :: mf := by
    simp only [formatTime, hfd, hmd, hstr, hhf, hmf]
  rw [hform]
  have hsplit : jsSplit ':' (hf ++ ':' :: mf) = hf :: jsSplit ':' mf := by
    refine jsSplit_append_sep ?_
    intro c hc
    exact isDigitCh_ne_colon (by
      have := List.all_eq_true.mp hfD c hc
      exact this)
  have hsplit2 : jsSplit ':' mf = [mf] := by
    refine jsSplit_no_sep ?_
    intro c hc
    exact isDigitCh_ne_colon (List.all_eq_true.mp mfD c hc)
  simp only [getMinutes, hsplit, hsplit2]
  simp only [List.get?_cons_zero, List.get?_cons_succ]
  rw [jsNumber_digits hfne hfD, jsNumber_digits mfne mfD]
  rw [hhf, hmf, padStart2_parse, padStart2_parse, parse_natDigits, parse_natDigits]
  show some (((m / 60 : Nat) : Int) * 60 + ((m % 60 : Nat) : Int)) = some (m : Int)
  congr 1
  push_cast
  omega

-- ### Characters are determined by their numeric value

lemma char_eq_of_toNat {a b : Char} (h : a.toNat = b.toNat) : a = b :=
  Char.ext (UInt32.toNat.inj h)

lemma digitChar_toNat : ∀ k < 10, (digitChar k).toNat = 48 + k := by decide

lemma isDigitCh_bounds {c : Char} (h : isDigitCh c = true) :
    48 ≤ c.toNat ∧ c.toNat ≤ 57 := by
  simp only [isDigitCh, Bool.and_eq_true, decide_eq_true_eq] at h
  exact h

lemma digitChar_digitVal {c : Char} (h : isDigitCh c = true) :
    digitChar (digitVal c) = c := by
  obtain ⟨h1, h2⟩ := isDigitCh_bounds h
  apply char_eq_of_toNat
  rw [digitChar_toNat (digitVal c) (by simp only [digitVal]; omega)]
  simp only [digitVal]
  omega

lemma digitVal_le_nine {c : Char} (h : isDigitCh c = true) : digitVal c ≤ 9 := by
  obtain ⟨h1, h2⟩ := isDigitCh_bounds h
  simp only [digitVal]
  omega

/-- For two digit characters, formatting the two-digit value they denote
gives back exactly those two characters. -/
lemma padStart2_natDigits_two {x y : Char}
    (hx : isDigitCh x = true) (hy : isDigitCh y = true) :
    padStart2 (natDigits (digitVal x * 10 + digitVal y)) = [x, y] := by
  have hvx := digitVal_le_nine hx
  have hvy := digitVal_le_nine hy
  by_cases h0 : digitVal x = 0
  · have hv : digitVal x * 10 + digitVal y = digitVal y := by omega
    rw [hv, natDigits_unfold, if_pos (by omega)]
    unfold padStart2
    rw [if_neg (by simp), if_pos (by simp)]
    have hx0 : x = '0' := by
      have := digitChar_digitVal hx
      rw [h0] at this
      exact this.symm
    rw [digitChar_digitVal hy, hx0]
  · have hge : ¬ (digitVal x * 10 + digitVal y < 10) := by omega
    rw [natDigits_unfold, if_neg hge]
    have hdiv : (digitVal x * 10 + digitVal y) / 10 = digitVal x := by omega
    have hmod : (digitVal x * 10 + digitVal y) % 10 = digitVal y := by omega
    rw [hdiv, hmod, natDigits_unfold, if_pos (by omega)]
    rw [digitChar_digitVal hx, digitChar_digitVal hy]
    unfold padStart2
    rw [if_pos (by simp)]
    rfl

/-- Formatting a non-negative integer minute count is zero-padded decimal of
quotient and remainder by 60. -/
lemma formatTime_ofNat (n : Nat) :
    formatTime (some (n : Int)) =
      padStart2 (natDigits (n / 60)) ++ ':' :: padStart2 (natDigits (n % 60)) := by
  have hfd : jsFloorDiv60 (some (n : Int)) = some ((n / 60 : Nat) : Int) :=
    congrArg some (Int.ofNat_fdiv n 60).symm
  have hmd : jsMod60 (some (n : Int)) = some ((n % 60 : Nat) : Int) :=
    congrArg some (Int.ofNat_tmod n 60).symm
  have hstr : ∀ k : Nat, jsNumToStr (some (k : Int)) = natDigits k := by
    intro k
    simp [jsNumToStr]
  simp only [formatTime, hfd, hmd, hstr]

example : isValidHHMM (str "09:30") = true := by decide
example : isValidHHMM (str "24:00") = false := by decide
example : isValidHHMM (str "9:30") = false := by decide

example : getMinutes (str "09:30") = some 570 := by decide
example : formatTime (some 570) = str "09:30" := by decide
example : formatTime (some 1500) = str "25:00" := by decide
example : getMinutes (str "abc") = none := by decide
example : formatTime none = str "NaN:NaN" := by decide
example : getMinutes (str "-1:-30") = some (-90) := by decide
example : formatTime (some (-90)) = str "-2:-30" := by decide

example : extractKeywordsFromTask (str "Write the Quarterly-Report") none
    = [str "write", str "quarterlyreport"] := by decide
example : extractKeywordsFromTask (str "Chat with Alice") (some (str "review REVIEW notes"))
    = [str "chat", str "alice", str "review", str "notes"] := by decide

-- ### Recalculation lemmas

lemma padStart2_length (l : JStr) : 2 ≤ (padStart2 l).length := by
  unfold padStart2
  by_cases h2 : 2 ≤ l.length
  · rw [if_pos h2]; exact h2
  · rw [if_neg h2]
    by_cases h1 : l.length = 1
    · rw [if_pos h1]; simp [h1]
    · rw [if_neg h1]; decide

lemma recalcAux_length (cur : JsNum) (items : List ScheduleItem) :
    (recalcAux cur items).length = items.length := by
  induction items generalizing cur with
  | nil => rfl
  | cons it rest ih =>
    simp only [recalcAux, List.length_cons]
    rw [ih]

lemma recalcAux_preserves (cur : JsNum) (items : List ScheduleItem) :
    ∀ i < items.length,
      ((recalcAux cur items).getD i dItem).id = (items.getD i dItem).id ∧
      ((recalcAux cur items).getD i dItem).schedule_id = (items.getD i dItem).schedule_id ∧
      ((recalcAux cur items).getD i dItem).task_id = (items.getD i dItem).task_id ∧
      ((recalcAux cur items).getD i dItem).item_type = (items.getD i dItem).item_type ∧
      ((recalcAux cur items).getD i dItem).title = (items.getD i dItem).title ∧
      ((recalcAux cur items).getD i dItem).completed = (items.getD i dItem).completed := by
  induction items generalizing cur with
  | nil => intro i hi; simp at hi
  | cons it rest ih =>
    intro i hi
    cases i with
    | zero => exact ⟨rfl, rfl, rfl, rfl, rfl, rfl⟩
    | succ j =>
      have hj : j < rest.length := by
        simp only [List.length_cons] at hi
        omega
      have hstep : recalcAux cur (it :: rest)
          = { it with start_time := formatTime cur,
                      end_time := formatTime (jadd cur (duration it)) }
            :: recalcAux (jadd cur (duration it)) rest := rfl
      rw [hstep]
      simp only [List.getD_cons_succ]
      exact ih (jadd cur (duration it)) j hj

lemma recalcAux_contiguous (cur : JsNum) (items : List ScheduleItem) :
    ∀ i, i + 1 < items.length →
      ((recalcAux cur items).getD i dItem).end_time
        = ((recalcAux cur items).getD (i + 1) dItem).start_time := by
  induction items generalizing cur with
  | nil => intro i hi; simp at hi
  | cons it rest ih =>
    intro i hi
    cases i with
    | zero =>
      cases rest with
      | nil => simp at hi
      | cons it2 rest2 => rfl
    | succ j =>
      have hj : j + 1 < rest.length := by
        simp only [List.length_cons] at hi
        omega
      have hstep : recalcAux cur (it :: rest)
          = { it with start_time := formatTime cur,
                      end_time := formatTime (jadd cur (duration it)) }
            :: recalcAux (jadd cur (duration it)) rest := rfl
      rw [hstep]
      simp only [List.getD_cons_succ]
      exact ih (jadd cur (duration it)) j hj

lemma recalcAux_durations (c : Nat) (items : List ScheduleItem)
    (h : ∀ it ∈ items, ∃ d : Nat, duration it = some (d : Int)) :
    ∀ i < items.length,
      ∃ a dd : Nat,
        duration (items.getD i dItem) = some (dd : Int) ∧
        getMinutes ((recalcAux (some (c : Int)) items).getD i dItem).start_time
          = some (a : Int) ∧
        getMinutes ((recalcAux (some (c : Int)) items).getD i dItem).end_time
          = some ((a + dd : Nat) : Int) := by
  induction items generalizing c with
  | nil => intro i hi; simp at hi
  | cons it rest ih =>
    intro i hi
    obtain ⟨d0, hd0⟩ := h it (by simp)
    have hcur2 : jadd (some (c : Int)) (duration it) = some ((c + d0 : Nat) : Int) := by
      rw [hd0]
      show some ((c : Int) + (d0 : Int)) = some ((c + d0 : Nat) : Int)
      norm_cast
    have hstep : recalcAux (some (c : Int)) (it :: rest)
        = { it with start_time := formatTime (some (c : Int)),
                    end_time := formatTime (jadd (some (c : Int)) (duration it)) }
          :: recalcAux (jadd (some (c : Int)) (duration it)) rest := rfl
    cases i with
    | zero =>
      refine ⟨c, d0, hd0, ?_, ?_⟩
      · rw [hstep]
        show getMinutes (formatTime (some (c : Int))) = some (c : Int)
        exact getMinutes_formatTime c
      · rw [hstep]
        show getMinutes (formatTime (jadd (some (c : Int)) (duration it)))
          = some ((c + d0 : Nat) : Int)
        rw [hcur2]
        exact getMinutes_formatTime (c + d0)
    | succ j =>
      have hj : j < rest.length := by
        simp only [List.length_cons] at hi
        omega
      have hrest : ∀ it2 ∈ rest, ∃ d : Nat, duration it2 = some (d : Int) :=
        fun it2 h2 => h it2 (by simp [h2])
      have := ih (c + d0) hrest j hj
      rw [hstep]
      simp only [List.getD_cons_succ]
      rw [hcur2] at hstep ⊢
      exact this

lemma getD_mem_of_lt {α : Type} {l : List α} {i : Nat} {d : α} (h : i < l.length) :
    l.getD i d ∈ l := by
  induction l generalizing i with
  | nil => simp at h
  | cons a as ih =>
    cases i with
    | zero => simp
    | succ j =>
      simp only [List.getD_cons_succ]
      exact List.mem_cons_of_mem a (ih (by simp only [List.length_cons] at h; omega))

-- ### Claim theorems: time arithmetic

/-- C6: for every valid zero-padded "HH:MM" string `s` (hour 00-23, minute
00-59), converting to minutes and back is the identity:
`formatTime (getMinutes s) = s`. -/
theorem claim_C6 (s : JStr) (h : isValidHHMM s = true) :
    formatTime (getMinutes s) = s := by
  rcases s with _ | ⟨a, _ | ⟨b, _ | ⟨c, _ | ⟨d, _ | ⟨e, _ | ⟨f, rest⟩⟩⟩⟩⟩⟩
  · simp [isValidHHMM] at h
  · simp [isValidHHMM] at h
  · simp [isValidHHMM] at h
  · simp [isValidHHMM] at h
  · simp [isValidHHMM] at h
  case cons.cons.cons.cons.cons.nil =>
    simp only [isValidHHMM, Bool.and_eq_true, beq_iff_eq, decide_eq_true_eq] at h
    obtain ⟨⟨⟨⟨⟨⟨ha, hb⟩, hcol⟩, hd⟩, he⟩, h24⟩, h60⟩ := h
    subst hcol
    have habl : ∀ ch ∈ ([a, b] : JStr), ch ≠ ':' := by
      intro ch hch
      rcases List.mem_cons.mp hch with rfl | hch2
      · exact isDigitCh_ne_colon ha
      · rcases List.mem_cons.mp hch2 with rfl | hch3
        · exact isDigitCh_ne_colon hb
        · exact absurd hch3 (List.not_mem_nil ch)
    have hdel : ∀ ch ∈ ([d, e] : JStr), ch ≠ ':' := by
      intro ch hch
      rcases List.mem_cons.mp hch with rfl | hch2
      · exact isDigitCh_ne_colon hd
      · rcases List.mem_cons.mp hch2 with rfl | hch3
        · exact isDigitCh_ne_colon he
        · exact absurd hch3 (List.not_mem_nil ch)
    have hsplit : jsSplit ':' [a, b, ':', d, e] = [[a, b], [d, e]] := by
      have h1 : jsSplit ':' (([a, b] : JStr) ++ ':' :: [d, e])
          = [a, b] :: jsSplit ':' [d, e] := jsSplit_append_sep habl
      rw [show ([a, b] : JStr) ++ ':' :: [d, e] = [a, b, ':', d, e] from rfl] at h1
      rw [h1, jsSplit_no_sep hdel]
    have pab : jsNumber [a, b] = some ((digitVal a * 10 + digitVal b : Nat) : Int) := by
      rw [jsNumber_digits (by simp) (by
        simp only [List.all_cons, List.all_nil, ha, hb]
        rfl)]
      congr 1
      show (((0 * 10 + digitVal a) * 10 + digitVal b : Nat) : Int) = _
      congr 1
      omega
    have pde : jsNumber [d, e] = some ((digitVal d * 10 + digitVal e : Nat) : Int) := by
      rw [jsNumber_digits (by simp) (by
        simp only [List.all_cons, List.all_nil, hd, he]
        rfl)]
      congr 1
      show (((0 * 10 + digitVal d) * 10 + digitVal e : Nat) : Int) = _
      congr 1
      omega
    have hg : getMinutes [a, b, ':', d, e]
        = some ((((digitVal a * 10 + digitVal b) * 60
            + (digitVal d * 10 + digitVal e) : Nat)) : Int) := by
      simp only [getMinutes, hsplit, List.get?]
      rw [pab, pde]
      show some (((digitVal a * 10 + digitVal b : Nat) : Int) * 60
          + ((digitVal d * 10 + digitVal e : Nat) : Int)) = _
      norm_cast
    rw [hg, formatTime_ofNat]
    have hH : ((digitVal a * 10 + digitVal b) * 60
        + (digitVal d * 10 + digitVal e)) / 60 = digitVal a * 10 + digitVal b := by
      omega
    have hM : ((digitVal a * 10 + digitVal b) * 60
        + (digitVal d * 10 + digitVal e)) % 60 = digitVal d * 10 + digitVal e := by
      omega
    rw [hH, hM, padStart2_natDigits_two ha hb, padStart2_natDigits_two hd he]
    rfl
  case cons.cons.cons.cons.cons.cons =>
    simp [isValidHHMM] at h

/-- C6 witness: the identity holds at the concrete valid input "09:05". -/
theorem claim_C6_witness :
    isValidHHMM (str "09:05") = true
      ∧ formatTime (getMinutes (str "09:05")) = str "09:05" :=
  ⟨by decide, claim_C6 (str "09:05") (by decide)⟩

/-- C8: `formatTime` applies no modulo-1440 reduction: for every `m : Nat`
the formatted string splits at the colon into an hour field that parses to
`m / 60` (at least two characters, zero-padded) and a minute field that
parses to `m % 60`; for `m > 1439` the hour value exceeds 23 instead of
wrapping. -/
theorem claim_C8 (m : Nat) :
    (jsSplit ':' (formatTime (some (m : Int)))).length = 2 ∧
    jsNumber ((jsSplit ':' (formatTime (some (m : Int)))).getD 0 [])
      = some ((m / 60 : Nat) : Int) ∧
    jsNumber ((jsSplit ':' (formatTime (some (m : Int)))).getD 1 [])
      = some ((m % 60 : Nat) : Int) ∧
    2 ≤ ((jsSplit ':' (formatTime (some (m : Int)))).getD 0 []).length ∧
    (1439 < m → 23 < m / 60) := by
  rw [formatTime_ofNat]
  have hfD : (padStart2 (natDigits (m / 60))).all isDigitCh = true :=
    padStart2_all_digits (natDigits_all_digits _)
  have mfD : (padStart2 (natDigits (m % 60))).all isDigitCh = true :=
    padStart2_all_digits (natDigits_all_digits _)
  have hsplit : jsSplit ':' (padStart2 (natDigits (m / 60))
        ++ ':' :: padStart2 (natDigits (m % 60)))
      = [padStart2 (natDigits (m / 60)), padStart2 (natDigits (m % 60))] := by
    rw [jsSplit_append_sep (fun c hc =>
      isDigitCh_ne_colon (List.all_eq_true.mp hfD c hc))]
    rw [jsSplit_no_sep (fun c hc =>
      isDigitCh_ne_colon (List.all_eq_true.mp mfD c hc))]
  rw [hsplit]
  refine ⟨rfl, ?_, ?_, ?_, ?_⟩
  · show jsNumber (padStart2 (natDigits (m / 60))) = some ((m / 60 : Nat) : Int)
    rw [jsNumber_digits (padStart2_ne_nil _) hfD, padStart2_parse, parse_natDigits]
  · show jsNumber (padStart2 (natDigits (m % 60))) = some ((m % 60 : Nat) : Int)
    rw [jsNumber_digits (padStart2_ne_nil _) mfD, padStart2_parse, parse_natDigits]
  · exact padStart2_length _
  · intro hgt
    omega

/-- C8 witness: at `m = 1500` the hour field parses to 25, exceeding 23. -/
theorem claim_C8_witness :
    (jsSplit ':' (formatTime (some (1500 : Nat)))).length = 2 ∧ 23 < 1500 / 60 :=
  ⟨(claim_C8 1500).1, (claim_C8 1500).2.2.2.2 (by norm_num)⟩

/-- C1: on items whose durations (`getMinutes end - getMinutes start`) are
positive, `recalculateTimeSlots` yields: first start time "09:00", each
item's end time equal to the next item's start time, and parsed start/end
minutes strictly increasing within every item. -/
theorem claim_C1 (items : List ScheduleItem)
    (hpos : ∀ it ∈ items, ∃ d : Nat, 0 < d ∧ duration it = some (d : Int)) :
    (items ≠ [] → ((recalculateTimeSlots items).getD 0 dItem).start_time = str "09:00") ∧
    (∀ i, i + 1 < (recalculateTimeSlots items).length →
      ((recalculateTimeSlots items).getD i dItem).end_time
        = ((recalculateTimeSlots items).getD (i + 1) dItem).start_time) ∧
    (∀ i < (recalculateTimeSlots items).length,
      ∃ a b : Int,
        getMinutes ((recalculateTimeSlots items).getD i dItem).start_time = some a ∧
        getMinutes ((recalculateTimeSlots items).getD i dItem).end_time = some b ∧
        a < b) := by
  have hlen : (recalculateTimeSlots items).length = items.length :=
    recalcAux_length _ _
  refine ⟨?_, ?_, ?_⟩
  · intro hne
    cases items with
    | nil => exact absurd rfl hne
    | cons it rest =>
      show (formatTime (some (9 * 60 : Int))) = str "09:00"
      decide
  · intro i hi
    rw [hlen] at hi
    exact recalcAux_contiguous _ items i hi
  · intro i hi
    rw [hlen] at hi
    have hparse : ∀ it ∈ items, ∃ d : Nat, duration it = some (d : Int) := by
      intro it hit
      obtain ⟨d, _, hdur⟩ := hpos it hit
      exact ⟨d, hdur⟩
    obtain ⟨a, dd, hdur, hs, he⟩ :=
      recalcAux_durations (9 * 60) items hparse i hi
    obtain ⟨d2, hd2pos, hd2⟩ := hpos (items.getD i dItem) (getD_mem_of_lt hi)
    have hdd : dd = d2 := by
      rw [hdur] at hd2
      exact_mod_cast Option.some.inj hd2
    refine ⟨(a : Int), ((a + dd : Nat) : Int), hs, he, ?_⟩
    have : 0 < dd := by omega
    exact_mod_cast Nat.lt_add_of_pos_right this


/-- C1 witness: on a singleton list with positive duration the first start
time is 09:00. -/
theorem claim_C1_witness :
    ((recalculateTimeSlots [sampleItem]).getD 0 dItem).start_time = str "09:00" :=
  (claim_C1 [sampleItem] (by
    intro it hit
    rw [List.mem_singleton] at hit
    subst hit
    exact ⟨90, by norm_num, by decide⟩)).1 (by simp)


/-- C10 counterexample: the second input item has duration 30 minutes, but
after `recalculateTimeSlots` the corresponding output item's duration is NaN
(both its times are "NaN:NaN"), so durations are not preserved for every
input sequence. -/
theorem claim_C10_cex :
    duration (c10CexItems.getD 1 dItem) = some 30 ∧
    duration ((recalculateTimeSlots c10CexItems).getD 1 dItem) = none ∧
    duration ((recalculateTimeSlots c10CexItems).getD 1 dItem)
      ≠ duration (c10CexItems.getD 1 dItem) := by
  refine ⟨by decide, by decide, by decide⟩

/-- C10 (amended): `recalculateTimeSlots` preserves length, order and the
non-time fields of every item unconditionally; it preserves every item's
duration provided each item's times parse to a non-negative duration. -/
theorem claim_C10 (items : List ScheduleItem) :
    (recalculateTimeSlots items).length = items.length ∧
    (∀ i < items.length,
      ((recalculateTimeSlots items).getD i dItem).id = (items.getD i dItem).id ∧
      ((recalculateTimeSlots items).getD i dItem).schedule_id
        = (items.getD i dItem).schedule_id ∧
      ((recalculateTimeSlots items).getD i dItem).task_id
        = (items.getD i dItem).task_id ∧
      ((recalculateTimeSlots items).getD i dItem).item_type
        = (items.getD i dItem).item_type ∧
      ((recalculateTimeSlots items).getD i dItem).title = (items.getD i dItem).title ∧
      ((recalculateTimeSlots items).getD i dItem).completed
        = (items.getD i dItem).completed) ∧
    ((∀ it ∈ items, ∃ d : Nat, duration it = some (d : Int)) →
      ∀ i < items.length,
        duration ((recalculateTimeSlots items).getD i dItem)
          = duration (items.getD i dItem)) := by
  refine ⟨recalcAux_length _ _, recalcAux_preserves _ _, ?_⟩
  intro hpar i hi
  obtain ⟨a, dd, hdur, hs, he⟩ := recalcAux_durations (9 * 60) items hpar i hi
  show jsub
      (getMinutes ((recalcAux (some ((9 * 60 : Nat) : Int)) items).getD i dItem).end_time)
      (getMinutes ((recalcAux (some ((9 * 60 : Nat) : Int)) items).getD i dItem).start_time)
    = duration (items.getD i dItem)
  rw [hs, he, hdur]
  show some (((a + dd : Nat) : Int) - (a : Int)) = some (dd : Int)
  congr 1
  push_cast
  ring

/-- C10 witness: at a concrete item with parseable times the duration (and
the id) are preserved. -/
theorem claim_C10_witness :
    (recalculateTimeSlots [sampleItem]).length = [sampleItem].length ∧
    duration ((recalculateTimeSlots [sampleItem]).getD 0 dItem)
      = duration ([sampleItem].getD 0 dItem) :=
  ⟨(claim_C10 [sampleItem]).1,
   (claim_C10 [sampleItem]).2.2 (by
      intro it hit
      rw [List.mem_singleton] at hit
      subst hit
      exact ⟨90, by decide⟩) 0 (by norm_num)⟩

-- ### Keyword-extraction lemmas

lemma ne_of_toNat_ne {a b : Char} (h : a.toNat ≠ b.toNat) : a ≠ b :=
  fun he => h (congrArg Char.toNat he)

lemma isWordCh_ranges {c : Char} (h : isWordCh c = true) :
    (48 ≤ c.toNat ∧ c.toNat ≤ 57) ∨ (65 ≤ c.toNat ∧ c.toNat ≤ 90)
    ∨ (97 ≤ c.toNat ∧ c.toNat ≤ 122) ∨ c.toNat = 95 := by
  simp only [isWordCh, Bool.or_eq_true, Bool.and_eq_true, decide_eq_true_eq,
    beq_iff_eq] at h
  tauto

lemma isWs_false_of_wordCh {c : Char} (h : isWordCh c = true) : isWs c = false := by
  have hr := isWordCh_ranges h
  have h1 : c ≠ ' ' := ne_of_toNat_ne (by rw [show (' ').toNat = 32 from rfl]; omega)
  have h2 : c ≠ '\t' := ne_of_toNat_ne (by rw [show ('\t').toNat = 9 from rfl]; omega)
  have h3 : c ≠ '\n' := ne_of_toNat_ne (by rw [show ('\n').toNat = 10 from rfl]; omega)
  have h4 : c ≠ '\r' := ne_of_toNat_ne (by rw [show ('\r').toNat = 13 from rfl]; omega)
  simp [isWs, h1, h2, h3, h4]

lemma splitWs_cons (c : Char) (rest : JStr) :
    splitWs (c :: rest) =
      if isWs c then
        match rest with
        | [] => [[], []]
        | c2 :: _ => if isWs c2 then splitWs rest else [] :: splitWs rest
      else
        match splitWs rest with
        | [] => [[c]]
        | p :: ps => (c :: p) :: ps := rfl

lemma splitWs_ne_nil (l : JStr) : splitWs l ≠ [] := by
  induction l with
  | nil => simp [splitWs]
  | cons c rest ih =>
    rw [splitWs_cons]
    by_cases h : isWs c = true
    · rw [if_pos h]
      cases rest with
      | nil => simp
      | cons c2 t2 =>
        show (if isWs c2 = true then splitWs (c2 :: t2)
          else [] :: splitWs (c2 :: t2)) ≠ []
        by_cases h2 : isWs c2 = true
        · rw [if_pos h2]; exact ih
        · rw [if_neg h2]; simp
    · rw [if_neg h]
      cases hsr : splitWs rest with
      | nil => exact absurd hsr ih
      | cons q qs => simp

lemma splitWs_sub {l : JStr} : ∀ p ∈ splitWs l, ∀ c ∈ p, c ∈ l := by
  induction l with
  | nil =>
    intro p hp c hc
    simp only [splitWs, List.mem_singleton] at hp
    subst hp
    simp at hc
  | cons a rest ih =>
    intro p hp ch hc
    rw [splitWs_cons] at hp
    by_cases h : isWs a = true
    · rw [if_pos h] at hp
      cases rest with
      | nil =>
        have hpe : p = [] := by
          rcases List.mem_cons.mp hp with rfl | hp2
          · rfl
          · simpa using hp2
        rw [hpe] at hc
        simp at hc
      | cons c2 t2 =>
        have hpr : p ∈ (if isWs c2 = true then splitWs (c2 :: t2)
            else [] :: splitWs (c2 :: t2)) := hp
        by_cases h2 : isWs c2 = true
        · rw [if_pos h2] at hpr
          exact List.mem_cons_of_mem a (ih p hpr ch hc)
        · rw [if_neg h2] at hpr
          rcases List.mem_cons.mp hpr with rfl | hp2
          · simp at hc
          · exact List.mem_cons_of_mem a (ih p hp2 ch hc)
    · rw [if_neg h] at hp
      cases hsr : splitWs rest with
      | nil => exact absurd hsr (splitWs_ne_nil rest)
      | cons q qs =>
        rw [hsr] at hp
        rcases List.mem_cons.mp hp with rfl | hp2
        · rcases List.mem_cons.mp hc with rfl | hc2
          · exact List.mem_cons_self _ _
          · have hq : q ∈ splitWs rest := by
              rw [hsr]
              exact List.mem_cons_self _ _
            exact List.mem_cons_of_mem a (ih q hq ch hc2)
        · have hps : p ∈ splitWs rest := by
            rw [hsr]
            exact List.mem_cons_of_mem q hp2
          exact List.mem_cons_of_mem a (ih p hps ch hc)

lemma splitWs_word_space {w t : JStr} (hw : ∀ c ∈ w, isWs c = false)
    (ht : t = [] ∨ ∃ c2 t2, t = c2 :: t2 ∧ isWs c2 = false) :
    splitWs (w ++ ' ' :: t) = w :: splitWs t := by
  induction w with
  | nil =>
    show splitWs (' ' :: t) = [] :: splitWs t
    rw [splitWs_cons, if_pos (by decide)]
    rcases ht with rfl | ⟨c2, t2, rfl, hc2⟩
    · rfl
    · show (if isWs c2 = true then splitWs (c2 :: t2)
        else [] :: splitWs (c2 :: t2)) = [] :: splitWs (c2 :: t2)
      rw [if_neg (by rw [hc2]; simp)]
  | cons a w2 ih =>
    have ha : isWs a = false := hw a (by simp)
    show splitWs (a :: (w2 ++ ' ' :: t)) = (a :: w2) :: splitWs t
    rw [splitWs_cons, if_neg (by rw [ha]; simp)]
    rw [ih (fun d hd => hw d (by simp [hd]))]

lemma joinWords_cons_cons (k k2 : JStr) (K : List JStr) :
    joinWords (k :: k2 :: K) = k ++ ' ' :: joinWords (k2 :: K) := rfl

lemma splitWs_join : ∀ {K : List JStr}, K ≠ [] →
    (∀ k ∈ K, k ≠ [] ∧ ∀ c ∈ k, isWs c = false) →
    splitWs (joinWords K ++ [' ']) = K ++ [[]] := by
  intro K
  induction K with
  | nil => intro hne _; exact absurd rfl hne
  | cons k K2 ih =>
    intro _ h
    cases K2 with
    | nil =>
      show splitWs (k ++ ' ' :: []) = [k, []]
      rw [splitWs_word_space (h k (by simp)).2 (Or.inl rfl)]
      rfl
    | cons k2 K3 =>
      rw [joinWords_cons_cons]
      rw [show (k ++ ' ' :: joinWords (k2 :: K3)) ++ [' ']
            = k ++ ' ' :: (joinWords (k2 :: K3) ++ [' ']) from by simp]
      have hhead : joinWords (k2 :: K3) ++ [' '] = [] ∨
          ∃ c2 t2, joinWords (k2 :: K3) ++ [' '] = c2 :: t2 ∧ isWs c2 = false := by
        right
        obtain ⟨hk2ne, hk2ws⟩ := h k2 (by simp)
        cases k2 with
        | nil => exact absurd rfl hk2ne
        | cons c2 t2 =>
          cases K3 with
          | nil => exact ⟨c2, t2 ++ [' '], rfl, hk2ws c2 (by simp)⟩
          | cons k3 K4 =>
            exact ⟨c2, t2 ++ ' ' :: (joinWords (k3 :: K4) ++ [' ']),
              by rw [joinWords_cons_cons]; simp, hk2ws c2 (by simp)⟩
      rw [splitWs_word_space (h k (by simp)).2 hhead]
      rw [ih (by simp) (fun k2 hk2 => h k2 (by simp [hk2]))]
      rfl

lemma dedupAux_cons (seen : List JStr) (a : JStr) (as : List JStr) :
    dedupAux seen (a :: as)
      = if a ∈ seen then dedupAux seen as else a :: dedupAux (a :: seen) as := rfl

lemma dedupAux_subset {l : List JStr} :
    ∀ {seen : List JStr}, ∀ x ∈ dedupAux seen l, x ∈ l := by
  induction l with
  | nil => intro seen x hx; simp [dedupAux] at hx
  | cons a as ih =>
    intro seen x hx
    rw [dedupAux_cons] at hx
    by_cases h : a ∈ seen
    · rw [if_pos h] at hx
      exact List.mem_cons_of_mem a (ih x hx)
    · rw [if_neg h] at hx
      rcases List.mem_cons.mp hx with rfl | hx2
      · exact List.mem_cons_self _ _
      · exact List.mem_cons_of_mem a (ih x hx2)

lemma dedupAux_nodup {l : List JStr} :
    ∀ {seen : List JStr},
      (dedupAux seen l).Nodup ∧ ∀ x ∈ dedupAux seen l, x ∉ seen := by
  induction l with
  | nil => intro seen; exact ⟨List.nodup_nil, by simp [dedupAux]⟩
  | cons a as ih =>
    intro seen
    rw [dedupAux_cons]
    by_cases h : a ∈ seen
    · rw [if_pos h]
      exact ih
    · rw [if_neg h]
      have iha := @ih (a :: seen)
      constructor
      · rw [List.nodup_cons]
        refine ⟨fun hmem => ?_, iha.1⟩
        exact absurd (List.mem_cons_self a seen) (iha.2 a hmem)
      · intro x hx
        rcases List.mem_cons.mp hx with rfl | hx2
        · exact h
        · intro hxs
          exact iha.2 x hx2 (List.mem_cons_of_mem a hxs)

lemma dedupAux_of_nodup {l : List JStr} :
    ∀ {seen : List JStr}, l.Nodup → (∀ x ∈ l, x ∉ seen) → dedupAux seen l = l := by
  induction l with
  | nil => intro seen _ _; rfl
  | cons a as ih =>
    intro seen hn hs
    rw [dedupAux_cons, if_neg (hs a (List.mem_cons_self a as))]
    congr 1
    have hcons := List.nodup_cons.mp hn
    refine ih hcons.2 (fun x hx => ?_)
    intro hxs
    rcases List.mem_cons.mp hxs with rfl | hx2
    · exact hcons.1 hx
    · exact hs x (List.mem_cons_of_mem a hx) hx2

lemma toNat_ofNat_valid {n : Nat} (h : n < 55296) : (Char.ofNat n).toNat = n := by
  have hv : n.isValidChar := Or.inl (by omega)
  unfold Char.ofNat
  rw [dif_pos hv]
  rfl

lemma toLowerCh_no_upper (c : Char) :
    ¬(65 ≤ (toLowerCh c).toNat ∧ (toLowerCh c).toNat ≤ 90) := by
  rw [toLowerCh]
  by_cases h : (65 ≤ c.toNat && c.toNat ≤ 90) = true
  · rw [if_pos h]
    simp only [Bool.and_eq_true, decide_eq_true_eq] at h
    rw [toNat_ofNat_valid (by omega)]
    omega
  · rw [if_neg h]
    simp only [Bool.and_eq_true, decide_eq_true_eq] at h
    omega

lemma toLowerStr_id {s : JStr} (h : ∀ c ∈ s, ¬(65 ≤ c.toNat ∧ c.toNat ≤ 90)) :
    toLowerStr s = s := by
  rw [toLowerStr]
  refine (List.map_congr_left (fun c hc => ?_)).trans (List.map_id' s)
  show toLowerCh c = c
  rw [toLowerCh, if_neg (by
    simp only [Bool.and_eq_true, decide_eq_true_eq]
    exact h c hc)]

lemma stripNonWord_id {s : JStr} (h : ∀ c ∈ s, isWordCh c = true) :
    stripNonWord s = s :=
  List.filter_eq_self.mpr h

lemma mem_joinWords {K : List JStr} {c : Char} (h : c ∈ joinWords K) :
    c = ' ' ∨ ∃ k ∈ K, c ∈ k := by
  induction K with
  | nil => simp [joinWords] at h
  | cons k K2 ih =>
    cases K2 with
    | nil =>
      exact Or.inr ⟨k, by simp, by simpa [joinWords] using h⟩
    | cons k2 K3 =>
      rw [joinWords_cons_cons] at h
      rcases List.mem_append.mp h with h1 | h2
      · exact Or.inr ⟨k, by simp, h1⟩
      · rcases List.mem_cons.mp h2 with rfl | h3
        · exact Or.inl rfl
        · rcases ih h3 with h4 | ⟨kk, hkk, hck⟩
          · exact Or.inl h4
          · exact Or.inr ⟨kk, by simp [hkk], hck⟩

lemma extract_mem (title : JStr) (desc : Option JStr) :
    ∀ k ∈ extractKeywordsFromTask title desc,
      3 < k.length ∧ k ∉ commonWordsScheduler ∧
      (∀ c ∈ k, isWordCh c = true ∧ ¬(65 ≤ c.toNat ∧ c.toNat ≤ 90)) := by
  intro k hk
  simp only [extractKeywordsFromTask] at hk
  have hk2 := List.mem_of_mem_take hk
  have hk3 := dedupAux_subset k hk2
  have hfil := List.mem_filter.mp hk3
  obtain ⟨w, hw, rfl⟩ := List.mem_map.mp hfil.1
  have hok := hfil.2
  rw [keywordOk, decide_eq_true_eq] at hok
  refine ⟨hok.1, hok.2, ?_⟩
  intro c hc
  have hcf := List.mem_filter.mp hc
  refine ⟨hcf.2, ?_⟩
  have hcl : c ∈ toLowerStr (title ++ ' ' :: desc.getD []) :=
    splitWs_sub w hw c hcf.1
  obtain ⟨c0, _, rfl⟩ := List.mem_map.mp hcl
  exact toLowerCh_no_upper c0

/-- C7: keyword extraction returns at most five keywords, and re-running it
on the keywords joined by spaces returns exactly the same keyword list (so in
particular the same set, order aside). -/
theorem claim_C7 (title : JStr) (desc : Option JStr) :
    (extractKeywordsFromTask title desc).length ≤ 5 ∧
    extractKeywordsFromTask (joinWords (extractKeywordsFromTask title desc)) none
      = extractKeywordsFromTask title desc := by
  have hlen5 : (extractKeywordsFromTask title desc).length ≤ 5 := by
    rw [extractKeywordsFromTask, List.length_take]
    omega
  refine ⟨hlen5, ?_⟩
  have hmem := extract_mem title desc
  have hnodup : (extractKeywordsFromTask title desc).Nodup := by
    rw [extractKeywordsFromTask]
    exact (List.take_sublist _ _).nodup dedupAux_nodup.1
  by_cases hKe : extractKeywordsFromTask title desc = []
  · rw [hKe]
    decide
  · have hkprops : ∀ k ∈ extractKeywordsFromTask title desc,
        k ≠ [] ∧ ∀ c ∈ k, isWs c = false := by
      intro k hk
      obtain ⟨hl, _, hch⟩ := hmem k hk
      refine ⟨fun he => by rw [he] at hl; simp at hl,
        fun c hc => isWs_false_of_wordCh (hch c hc).1⟩
    conv =>
      lhs
      rw [extractKeywordsFromTask]
    have htext : toLowerStr (joinWords (extractKeywordsFromTask title desc)
          ++ ' ' :: (none : Option JStr).getD [])
        = joinWords (extractKeywordsFromTask title desc) ++ [' '] := by
      rw [Option.getD_none]
      apply toLowerStr_id
      intro c hc
      rcases List.mem_append.mp hc with hcj | hcs
      · rcases mem_joinWords hcj with rfl | ⟨k, hk, hck⟩
        · rw [show (' ').toNat = 32 from rfl]; omega
        · exact ((hmem k hk).2.2 c hck).2
      · rw [show c = ' ' from by simpa using hcs,
          show (' ').toNat = 32 from rfl]
        omega
    rw [htext, splitWs_join hKe hkprops, List.map_append, List.filter_append]
    have hstr : (extractKeywordsFromTask title desc).map stripNonWord
        = extractKeywordsFromTask title desc := by
      refine (List.map_congr_left (fun k hk => ?_)).trans
        (List.map_id' (extractKeywordsFromTask title desc))
      exact stripNonWord_id (fun c hc => ((hmem k hk).2.2 c hc).1)
    have hfK : (extractKeywordsFromTask title desc).filter keywordOk
        = extractKeywordsFromTask title desc :=
      List.filter_eq_self.mpr (fun k hk => by
        rw [keywordOk]
        exact decide_eq_true ⟨(hmem k hk).1, (hmem k hk).2.1⟩)
    rw [hstr]
    rw [show ([([] : JStr)] : List JStr).map stripNonWord = [[]] from rfl]
    rw [hfK]
    rw [show ([([] : JStr)] : List JStr).filter keywordOk = [] from rfl]
    rw [List.append_nil]
    rw [dedupAux_of_nodup hnodup (by simp)]
    exact List.take_of_length_le hlen5

-- ### Pattern-update lemmas

lemma roundDiv_eq_round (a b : Nat) (hb : 0 < b) :
    (roundDiv a b : Int) = round ((a : Rat) / (b : Rat)) := by
  have hb0 : (b : Rat) ≠ 0 := Nat.cast_ne_zero.mpr hb.ne'
  have h2b : ((2 * b : Nat) : Rat) ≠ 0 := Nat.cast_ne_zero.mpr (by omega)
  rw [round_eq]
  have h1 : (a : Rat) / (b : Rat) + 1 / 2 = ((2 * a + b : Nat) : Rat) / ((2 * b : Nat) : Rat) := by
    push_cast
    field_simp
    ring
  rw [h1, Rat.floor_natCast_div_natCast]
  rw [roundDiv]
  push_cast
  rfl

lemma recordCompletion_found {freshId : JStr} {patterns : List TaskPattern}
    {keywords : List JStr} {D : Nat} {p : TaskPattern}
    (hg : ¬(keywords.length = 0 ∨ D = 0))
    (hfind : patterns.find? (patternMatches keywords) = some p) :
    recordCompletion freshId patterns keywords D
      = patterns.map (fun q =>
          if q.id = p.id then
            { q with
              average_duration :=
                roundDiv (p.average_duration * p.times_scheduled + D)
                  (p.times_scheduled + 1),
              times_scheduled := p.times_scheduled + 1,
              times_completed := p.times_completed + 1,
              completion_rate := ((p.times_completed + 1 : Nat) : Rat)
                / ((p.times_scheduled + 1 : Nat) : Rat) }
          else q) := by
  unfold recordCompletion
  rw [if_neg hg, hfind]

lemma recordCompletion_none {freshId : JStr} {patterns : List TaskPattern}
    {keywords : List JStr} {D : Nat}
    (hg : ¬(keywords.length = 0 ∨ D = 0))
    (hfind : patterns.find? (patternMatches keywords) = none) :
    recordCompletion freshId patterns keywords D
      = patterns ++
        [{ id := freshId, task_keywords := keywords, average_duration := D,
           times_scheduled := 1, times_completed := 1, completion_rate := 1 }] := by
  unfold recordCompletion
  rw [if_neg hg, hfind]

/-- C3: recording a completion of duration `D` against patterns: if the first
matching pattern holds average `A` over `N` scheduled occurrences, every row
with its id is updated to average `round((A*N + D)/(N+1))`, scheduled count
`N+1`, completed count incremented, and rate recomputed as
completed/scheduled; if no pattern's keywords intersect, a fresh pattern with
counts 1 and rate 1.0 is appended. -/
theorem claim_C3 (freshId : JStr) (patterns : List TaskPattern)
    (keywords : List JStr) (D : Nat) (hk : keywords ≠ []) (hD : 0 < D) :
    (∀ p, patterns.find? (patternMatches keywords) = some p →
      ∀ q ∈ recordCompletion freshId patterns keywords D, q.id = p.id →
        (q.average_duration : Int)
            = round (((p.average_duration * p.times_scheduled + D : Nat) : Rat)
                / ((p.times_scheduled + 1 : Nat) : Rat)) ∧
        q.times_scheduled = p.times_scheduled + 1 ∧
        q.times_completed = p.times_completed + 1 ∧
        q.completion_rate = (q.times_completed : Rat) / (q.times_scheduled : Rat)) ∧
    ((∀ p ∈ patterns, patternMatches keywords p = false) →
      recordCompletion freshId patterns keywords D
        = patterns ++
          [{ id := freshId, task_keywords := keywords, average_duration := D,
             times_scheduled := 1, times_completed := 1,
             completion_rate := 1 }]) := by
  have hg : ¬(keywords.length = 0 ∨ D = 0) := by
    push_neg
    refine ⟨fun h0 => hk (List.length_eq_zero.mp h0), hD.ne'⟩
  constructor
  · intro p hfind q hq hid
    rw [recordCompletion_found hg hfind] at hq
    obtain ⟨q0, hq0, rfl⟩ := List.mem_map.mp hq
    by_cases hsame : q0.id = p.id
    · rw [if_pos hsame]
      refine ⟨?_, rfl, rfl, rfl⟩
      show ((roundDiv (p.average_duration * p.times_scheduled + D)
          (p.times_scheduled + 1) : Nat) : Int) = _
      rw [roundDiv_eq_round _ _ (by omega)]
    · rw [if_neg hsame] at hid
      exact absurd hid hsame
  · intro hnone
    refine recordCompletion_none hg (List.find?_eq_none.mpr (fun p hp => ?_))
    rw [hnone p hp]
    simp


/-- C3 witness: completing a 60-minute "report" task against the sample
pattern yields average round((30*2+60)/3) = 40 and scheduled count 3. -/
theorem claim_C3_witness :
    ∃ q ∈ recordCompletion (str "f") [samplePattern] [str "report"] 60,
      q.id = samplePattern.id ∧
      q.average_duration = 40 ∧ q.times_scheduled = 3 ∧ q.times_completed = 2 := by
  have h := (claim_C3 (str "f") [samplePattern] [str "report"] 60
      (by decide) (by norm_num)).1 samplePattern rfl
  refine ⟨(recordCompletion (str "f") [samplePattern] [str "report"] 60).getD 0
      { samplePattern with id := [] }, ?_, ?_⟩
  · exact getD_mem_of_lt (by decide)
  · have hmem : (recordCompletion (str "f") [samplePattern] [str "report"] 60).getD 0
        { samplePattern with id := [] }
        ∈ recordCompletion (str "f") [samplePattern] [str "report"] 60 :=
      getD_mem_of_lt (by decide)
    have hid : ((recordCompletion (str "f") [samplePattern] [str "report"] 60).getD 0
        { samplePattern with id := [] }).id = samplePattern.id := by decide
    obtain ⟨havg, hsch, hcmp, _⟩ := h _ hmem hid
    refine ⟨hid, ?_, hsch, hcmp⟩
    have : ((recordCompletion (str "f") [samplePattern] [str "report"] 60).getD 0
        { samplePattern with id := [] }).average_duration = 40 := by decide
    exact this

-- ### Schedule Assembler lemmas

lemma getD_map_of_lt {α β : Type} (f : α → β) (l : List α) :
    ∀ {i : Nat}, i < l.length → ∀ (d : β) (d2 : α),
      (l.map f).getD i d = f (l.getD i d2) := by
  induction l with
  | nil => intro i h d d2; simp at h
  | cons a as ih =>
    intro i h d d2
    cases i with
    | zero => rfl
    | succ j =>
      simp only [List.map_cons, List.getD_cons_succ]
      exact ih (by simp only [List.length_cons] at h; omega) d d2

lemma find?_eq_some_split {α : Type} {p : α → Bool} {l : List α} {a : α}
    (h : l.find? p = some a) :
    ∃ pre post, l = pre ++ a :: post ∧ p a = true ∧ ∀ u ∈ pre, p u = false := by
  induction l with
  | nil => simp [List.find?] at h
  | cons c t ih =>
    have hunf : List.find? p (c :: t)
        = match p c with | true => some c | false => List.find? p t := rfl
    cases hpc : p c with
    | true =>
      rw [hunf, hpc] at h
      have h2 : some c = some a := h
      obtain rfl := Option.some.inj h2
      exact ⟨[], t, rfl, hpc, by simp⟩
    | false =>
      rw [hunf, hpc] at h
      have h2 : List.find? p t = some a := h
      obtain ⟨pre, post, heq, hpa, hpre⟩ := ih h2
      refine ⟨c :: pre, post, by rw [heq]; rfl, hpa, ?_⟩
      intro u hu
      rcases List.mem_cons.mp hu with rfl | hu2
      · exact hpc
      · exact hpre u hu2


/-- C4 counterexample: the assembler computes the fuzzy match for every block
regardless of type, so a lunch block whose title contains a task title gets
that task's id instead of the null id the claim promises for break and lunch
blocks. -/
theorem claim_C4_cex :
    ((assembleItems (str "s1") [lunchTask] [lunchBlock]).getD 0 dNewItem).item_type
      = ItemType.lunch ∧
    ((assembleItems (str "s1") [lunchTask] [lunchBlock]).getD 0 dNewItem).task_id
      = some (str "t1") ∧
    ((assembleItems (str "s1") [lunchTask] [lunchBlock]).getD 0 dNewItem).task_id
      ≠ none := by
  refine ⟨by decide, by decide, by decide⟩

/-- C4 (amended): each assembled item carries the corresponding block's start
time, end time, type and title; its task id is the id of the first task (in
day-task order, no scoring) whose title is related to the block title by
case-insensitive substring containment in either direction — for every block
type — and is null exactly when no task matches (given the real-world
invariant that task ids are non-empty). -/
theorem claim_C4 (scheduleId : JStr) (dayTasks : List Task) (blocks : List Block)
    (i : Nat) (hi : i < blocks.length) :
    (assembleItems scheduleId dayTasks blocks).length = blocks.length ∧
    ((assembleItems scheduleId dayTasks blocks).getD i dNewItem).schedule_id
      = scheduleId ∧
    ((assembleItems scheduleId dayTasks blocks).getD i dNewItem).start_time
      = (blocks.getD i dBlock).start_time ∧
    ((assembleItems scheduleId dayTasks blocks).getD i dNewItem).end_time
      = (blocks.getD i dBlock).end_time ∧
    ((assembleItems scheduleId dayTasks blocks).getD i dNewItem).item_type
      = (blocks.getD i dBlock).type ∧
    ((assembleItems scheduleId dayTasks blocks).getD i dNewItem).title
      = (blocks.getD i dBlock).title ∧
    ((assembleItems scheduleId dayTasks blocks).getD i dNewItem).completed
      = false ∧
    (∀ tid, ((assembleItems scheduleId dayTasks blocks).getD i dNewItem).task_id
        = some tid →
      ∃ pre t post, dayTasks = pre ++ t :: post ∧ t.id = tid ∧
        matchBlockTask (blocks.getD i dBlock).title t = true ∧
        ∀ u ∈ pre, matchBlockTask (blocks.getD i dBlock).title u = false) ∧
    ((∀ t ∈ dayTasks, t.id ≠ []) →
      ((assembleItems scheduleId dayTasks blocks).getD i dNewItem).task_id = none →
      ∀ t ∈ dayTasks, matchBlockTask (blocks.getD i dBlock).title t = false) := by
  have hmap : (assembleItems scheduleId dayTasks blocks).getD i dNewItem
      = ({ schedule_id := scheduleId,
           task_id :=
             match dayTasks.find? (fun t =>
                 matchBlockTask (blocks.getD i dBlock).title t) with
             | some t => if t.id = [] then none else some t.id
             | none => none,
           start_time := (blocks.getD i dBlock).start_time,
           end_time := (blocks.getD i dBlock).end_time,
           item_type := (blocks.getD i dBlock).type,
           title := (blocks.getD i dBlock).title,
           completed := false } : NewScheduleItem) :=
    getD_map_of_lt _ blocks hi dNewItem dBlock
  rw [hmap]
  refine ⟨by rw [assembleItems, List.length_map], rfl, rfl, rfl, rfl, rfl, rfl, ?_, ?_⟩
  · intro tid htid
    cases hfind : dayTasks.find? (fun t =>
        matchBlockTask (blocks.getD i dBlock).title t) with
    | none =>
      rw [hfind] at htid
      exact absurd htid (by simp)
    | some t =>
      rw [hfind] at htid
      have htid2 : (if t.id = [] then none else some t.id) = some tid := htid
      by_cases hid : t.id = []
      · rw [if_pos hid] at htid2
        exact absurd htid2 (by simp)
      · rw [if_neg hid] at htid2
        obtain ⟨pre, post, heq, hmatch, hpre⟩ := find?_eq_some_split hfind
        exact ⟨pre, t, post, heq, Option.some.inj htid2, hmatch, hpre⟩
  · intro hids hnone t ht
    cases hfind : dayTasks.find? (fun t =>
        matchBlockTask (blocks.getD i dBlock).title t) with
    | none =>
      have := List.find?_eq_none.mp hfind t ht
      simpa using this
    | some t2 =>
      rw [hfind] at hnone
      have hnone2 : (if t2.id = [] then none else some t2.id) = (none : Option JStr) :=
        hnone
      have ht2 : t2 ∈ dayTasks := List.mem_of_find?_eq_some hfind
      by_cases hid : t2.id = []
      · exact absurd hid (hids t2 ht2)
      · rw [if_neg hid] at hnone2
        exact absurd hnone2 (by simp)


/-- C4 witness: at a concrete block/task pair, the assembled item carries the
block's fields and the first matching task's id. -/
theorem claim_C4_witness :
    (assembleItems (str "s1") [reportTask] [reportBlock]).length = 1 ∧
    ((assembleItems (str "s1") [reportTask] [reportBlock]).getD 0 dNewItem).title
      = ([reportBlock].getD 0 dBlock).title := by
  have h := claim_C4 (str "s1") [reportTask] [reportBlock] 0 (by norm_num)
  exact ⟨h.1, h.2.2.2.2.2.1⟩

/-- C9: after a day's items are assembled and the day's tasks are marked, any
task referenced by an assembled item (its id appears as some item's task_id)
has status `scheduled` in the resulting task table. -/
theorem claim_C9 (scheduleId : JStr) (dayTasks : List Task) (blocks : List Block)
    (rows : List TaskRow) (tid : JStr)
    (h : ∃ it ∈ assembleItems scheduleId dayTasks blocks, it.task_id = some tid) :
    ∀ r ∈ generateDayMarkScheduled dayTasks rows, r.id = tid →
      r.status = TaskStatus.scheduled := by
  obtain ⟨it, hit, htid⟩ := h
  rw [assembleItems] at hit
  obtain ⟨b, _, rfl⟩ := List.mem_map.mp hit
  have htid2 : tid ∈ dayTasks.map (fun t => t.id) := by
    cases hfind : dayTasks.find? (fun t => matchBlockTask b.title t) with
    | none =>
      rw [hfind] at htid
      exact absurd htid (by simp)
    | some t =>
      rw [hfind] at htid
      have htid3 : (if t.id = [] then none else some t.id) = some tid := htid
      by_cases hid : t.id = []
      · rw [if_pos hid] at htid3
        exact absurd htid3 (by simp)
      · rw [if_neg hid] at htid3
        rw [← Option.some.inj htid3]
        exact List.mem_map.mpr ⟨t, List.mem_of_find?_eq_some hfind, rfl⟩
  intro r hr hrid
  rw [generateDayMarkScheduled, markTasksScheduled] at hr
  obtain ⟨r0, _, rfl⟩ := List.mem_map.mp hr
  by_cases hin : r0.id ∈ dayTasks.map (fun t => t.id)
  · rw [if_pos hin]
  · rw [if_neg hin] at hrid ⊢
    rw [hrid] at hin
    exact absurd htid2 hin

/-- C9 witness: at a concrete day the referenced task row ends up scheduled. -/
theorem claim_C9_witness :
    ((generateDayMarkScheduled [reportTask]
        [{ id := str "t1", status := TaskStatus.pending }]).getD 0 dRow).status
      = TaskStatus.scheduled := by
  have h := claim_C9 (str "s1") [reportTask] [reportBlock]
    [{ id := str "t1", status := TaskStatus.pending }] (str "t1")
    ⟨(assembleItems (str "s1") [reportTask] [reportBlock]).getD 0 dNewItem,
      getD_mem_of_lt (by decide), by decide⟩
  exact h _ (getD_mem_of_lt (by decide)) (by decide)

-- ### Generation-guard lemmas

/-- C5: when every weekday of the current Monday-Friday week is before
today, schedule generation leaves the database untouched and (whenever it
gets past the task-presence guard) reports that no days remain. -/
theorem claim_C5 (gen : Nat → List Task → Db → Db) (today : Nat)
    (tasks : List Task) (db : Db)
    (h : ∀ d ∈ getWeekDates today, d < today) :
    (handleGenerateSchedule gen today tasks db).1 = db ∧
    (tasks ≠ [] →
      (handleGenerateSchedule gen today tasks db).2
        = some (str "No remaining days in this week!")) := by
  have hrem : remainingDates today = [] := by
    rw [remainingDates]
    rw [List.filter_eq_nil_iff]
    intro d hd
    have := h d hd
    simp only [decide_eq_true_eq]
    omega
  by_cases ht : tasks.length = 0
  · constructor
    · rw [handleGenerateSchedule, if_pos ht]
    · intro hne
      exact absurd (List.length_eq_zero.mp ht) hne
  · have hred : handleGenerateSchedule gen today tasks db
        = (db, some (str "No remaining days in this week!")) := by
      rw [handleGenerateSchedule, if_neg ht, hrem]
      rfl
    rw [hred]
    exact ⟨rfl, fun _ => rfl⟩

/-- C5 witness: on a Saturday (day 5 with day 0 a Monday) all five weekdays
are past, the database is unchanged and the no-days alert is reported. -/
theorem claim_C5_witness :
    (handleGenerateSchedule (fun _ _ d => d) 5 [reportTask]
        { schedules := [], items := [], taskRows := [] }).1
      = { schedules := [], items := [], taskRows := [] } ∧
    (handleGenerateSchedule (fun _ _ d => d) 5 [reportTask]
        { schedules := [], items := [], taskRows := [] }).2
      = some (str "No remaining days in this week!") := by
  have h := claim_C5 (fun _ _ d => d) 5 [reportTask]
    { schedules := [], items := [], taskRows := [] } (by decide)
  exact ⟨h.1, h.2 (by simp)⟩

-- ### Day Distributor lemmas

lemma mem_insertByRank {α : Type} {r : α → Nat} {a x : α} :
    ∀ {l : List α}, x ∈ insertByRank r a l ↔ x = a ∨ x ∈ l := by
  intro l
  induction l with
  | nil => simp [insertByRank]
  | cons b bs ih =>
    rw [insertByRank]
    by_cases h : r a ≤ r b
    · rw [if_pos h]
      simp
    · rw [if_neg h]
      simp only [List.mem_cons, ih]
      tauto

lemma mem_sortByRank {α : Type} {r : α → Nat} {x : α} :
    ∀ {l : List α}, x ∈ sortByRank r l ↔ x ∈ l := by
  intro l
  induction l with
  | nil => simp [sortByRank]
  | cons a as ih =>
    rw [sortByRank, mem_insertByRank]
    simp only [List.mem_cons, ih]

lemma pushAt_length : ∀ (bs : List (List Task)) (i : Nat) (t : Task),
    (pushAt bs i t).length = bs.length := by
  intro bs
  induction bs with
  | nil => intro i t; rfl
  | cons b bs ih =>
    intro i t
    cases i with
    | zero => rfl
    | succ j =>
      show (b :: pushAt bs j t).length = (b :: bs).length
      simp [ih j t]

lemma pushAt_oob : ∀ {bs : List (List Task)} {i : Nat} (t : Task),
    bs.length ≤ i → pushAt bs i t = bs := by
  intro bs
  induction bs with
  | nil => intro i t _; rfl
  | cons b bs ih =>
    intro i t hi
    cases i with
    | zero => simp at hi
    | succ j =>
      show b :: pushAt bs j t = b :: bs
      rw [ih t (by simp only [List.length_cons] at hi; omega)]

lemma getD_pushAt_ne : ∀ {bs : List (List Task)} {i j : Nat} (t : Task),
    i ≠ j → (pushAt bs i t).getD j [] = bs.getD j [] := by
  intro bs
  induction bs with
  | nil => intro i j t _; rfl
  | cons b bs ih =>
    intro i j t hij
    cases i with
    | zero =>
      cases j with
      | zero => exact absurd rfl hij
      | succ k => rfl
    | succ i2 =>
      cases j with
      | zero => rfl
      | succ k =>
        show (pushAt bs i2 t).getD k [] = bs.getD k []
        exact ih t (fun he => hij (by rw [he]))

lemma getD_pushAt_eq : ∀ {bs : List (List Task)} {i : Nat} (t : Task),
    i < bs.length → (pushAt bs i t).getD i [] = bs.getD i [] ++ [t] := by
  intro bs
  induction bs with
  | nil => intro i t hi; simp at hi
  | cons b bs ih =>
    intro i t hi
    cases i with
    | zero => rfl
    | succ j =>
      show (pushAt bs j t).getD j [] = bs.getD j [] ++ [t]
      exact ih t (by simp only [List.length_cons] at hi; omega)

lemma mem_getD_pushAt {bs : List (List Task)} {i j : Nat} {t x : Task}
    (hx : x ∈ bs.getD j []) : x ∈ (pushAt bs i t).getD j [] := by
  by_cases hij : i = j
  · subst hij
    by_cases hlen : i < bs.length
    · rw [getD_pushAt_eq t hlen]
      exact List.mem_append_left _ hx
    · rw [pushAt_oob t (by omega)]
      exact hx
  · rw [getD_pushAt_ne t hij]
    exact hx

lemma distributeDue_length (dates : List Nat) (today : Nat) :
    ∀ (ts : List Task) (buckets : List (List Task)),
      (distributeDue dates today buckets ts).length = buckets.length := by
  intro ts
  induction ts with
  | nil => intro buckets; rfl
  | cons t ts ih =>
    intro buckets
    show (distributeDue dates today (pushAt buckets _ t) ts).length = _
    rw [ih, pushAt_length]

lemma distributeNoDue_length (n : Nat) :
    ∀ (ts : List Task) (i : Nat) (buckets : List (List Task)),
      (distributeNoDue n i buckets ts).length = buckets.length := by
  intro ts
  induction ts with
  | nil => intro i buckets; rfl
  | cons t ts ih =>
    intro i buckets
    show (distributeNoDue n (i + 1) (pushAt buckets (i % n) t) ts).length = _
    rw [ih, pushAt_length]

lemma distributeDue_mono (dates : List Nat) (today : Nat) :
    ∀ (ts : List Task) (buckets : List (List Task)) (j : Nat) (x : Task),
      x ∈ buckets.getD j [] → x ∈ (distributeDue dates today buckets ts).getD j [] := by
  intro ts
  induction ts with
  | nil => intro buckets j x hx; exact hx
  | cons t ts ih =>
    intro buckets j x hx
    exact ih _ j x (mem_getD_pushAt hx)

lemma distributeNoDue_mono (n : Nat) :
    ∀ (ts : List Task) (i : Nat) (buckets : List (List Task)) (j : Nat) (x : Task),
      x ∈ buckets.getD j [] → x ∈ (distributeNoDue n i buckets ts).getD j [] := by
  intro ts
  induction ts with
  | nil => intro i buckets j x hx; exact hx
  | cons t ts ih =>
    intro i buckets j x hx
    exact ih _ _ j x (mem_getD_pushAt hx)

lemma distributeDue_mem (dates : List Nat) (today : Nat) :
    ∀ (ts : List Task) (buckets : List (List Task)),
      (∀ t : Task, assignedIndex dates today (t.due_date.getD 0) < buckets.length) →
      ∀ t ∈ ts,
        t ∈ (distributeDue dates today buckets ts).getD
          (assignedIndex dates today (t.due_date.getD 0)) [] := by
  intro ts
  induction ts with
  | nil => intro buckets _ t ht; simp at ht
  | cons t0 ts ih =>
    intro buckets hidx t ht
    rcases List.mem_cons.mp ht with rfl | ht2
    · refine distributeDue_mono dates today ts _ _ t ?_
      rw [getD_pushAt_eq t (hidx t)]
      exact List.mem_append_right _ (List.mem_singleton.mpr rfl)
    · exact ih _ (fun u => by rw [pushAt_length]; exact hidx u) t ht2

lemma distributeNoDue_mem (n : Nat) (hn : 0 < n) :
    ∀ (ts : List Task) (i0 : Nat) (buckets : List (List Task)),
      buckets.length = n →
      ∀ j, j < ts.length →
        ts.getD j dTask
          ∈ (distributeNoDue n i0 buckets ts).getD ((i0 + j) % n) [] := by
  intro ts
  induction ts with
  | nil => intro i0 buckets _ j hj; simp at hj
  | cons t ts ih =>
    intro i0 buckets hlen j hj
    cases j with
    | zero =>
      show t ∈ (distributeNoDue n (i0 + 1) (pushAt buckets (i0 % n) t) ts).getD
        (i0 % n) []
      refine distributeNoDue_mono n ts _ _ _ t ?_
      rw [getD_pushAt_eq t (by rw [hlen]; exact Nat.mod_lt i0 hn)]
      exact List.mem_append_right _ (List.mem_singleton.mpr rfl)
    | succ k =>
      have := ih (i0 + 1) (pushAt buckets (i0 % n) t)
        (by rw [pushAt_length]; exact hlen) k
        (by simp only [List.length_cons] at hj; omega)
      show ts.getD k dTask
        ∈ (distributeNoDue n (i0 + 1) (pushAt buckets (i0 % n) t) ts).getD
          ((i0 + (k + 1)) % n) []
      rw [show i0 + (k + 1) = i0 + 1 + k from by omega]
      exact this

lemma findLatestLEAux_some {dates : List Nat} {due : Nat} :
    ∀ {j k : Nat}, findLatestLEAux dates due j = some k →
      k < j ∧ dates.getD k 0 ≤ due ∧
        ∀ i, k < i → i < j → due < dates.getD i 0 := by
  intro j
  induction j with
  | zero => intro k h; simp [findLatestLEAux] at h
  | succ j ih =>
    intro k h
    rw [findLatestLEAux] at h
    by_cases hj : dates.getD j 0 ≤ due
    · rw [if_pos hj] at h
      obtain rfl := Option.some.inj h
      exact ⟨Nat.lt_succ_self _, hj, fun i hki hij => by omega⟩
    · rw [if_neg hj] at h
      obtain ⟨hk, hle, hall⟩ := ih h
      refine ⟨by omega, hle, fun i hki hij => ?_⟩
      by_cases hij2 : i = j
      · subst hij2
        omega
      · exact hall i hki (by omega)

lemma findLatestLEAux_none {dates : List Nat} {due : Nat} :
    ∀ {j : Nat}, findLatestLEAux dates due j = none →
      ∀ i < j, due < dates.getD i 0 := by
  intro j
  induction j with
  | zero => intro _ i hi; omega
  | succ j ih =>
    intro h i hi
    rw [findLatestLEAux] at h
    by_cases hj : dates.getD j 0 ≤ due
    · rw [if_pos hj] at h
      exact absurd h (by simp)
    · rw [if_neg hj] at h
      by_cases hij : i = j
      · subst hij
        omega
      · exact ih h i (by omega)

lemma assignedIndex_lt {dates : List Nat} (today due : Nat) (hne : dates ≠ []) :
    assignedIndex dates today due < dates.length := by
  have hpos : 0 < dates.length := List.length_pos.mpr hne
  rw [assignedIndex]
  by_cases hd : due ≤ today
  · rw [if_pos hd]
    exact hpos
  · rw [if_neg hd]
    cases hfind : findLatestLEAux dates due dates.length with
    | none => exact hpos
    | some k =>
      have := (findLatestLEAux_some hfind).1
      simpa using this

lemma getD_eq_get {α : Type} (l : List α) (d : α) {j : Nat} (h : j < l.length) :
    l.getD j d = l.get ⟨j, h⟩ := by
  induction l generalizing j with
  | nil => simp at h
  | cons a as ih =>
    cases j with
    | zero => rfl
    | succ k =>
      show as.getD k d = _
      exact ih (by simp only [List.length_cons] at h; omega)

lemma sorted_getD_mono {dates : List Nat} (hs : dates.Sorted (· < ·))
    {j k : Nat} (hj : j < dates.length) (hk : k < dates.length) (hjk : j ≤ k) :
    dates.getD j 0 ≤ dates.getD k 0 := by
  rcases Nat.lt_or_ge j k with hlt | hge
  · rw [getD_eq_get dates 0 hj, getD_eq_get dates 0 hk]
    exact le_of_lt (hs.rel_get_of_lt hlt)
  · have : j = k := by omega
    subst this
    rfl

/-- C2: with a non-empty, ascending list of remaining dates: (a) every
due-dated task ends up in the bucket of its assigned index; (b) that index is
0 (the earliest day) when the due date is today or past, otherwise it is a
day whose date is at most the due date and is the latest such day, with
fallback 0 when the due date is before all remaining days; (c) the i-th
no-due-date task in priority order lands in bucket i mod n. -/
theorem claim_C2 (dates : List Nat) (today : Nat) (tasks : List Task)
    (hne : dates ≠ []) (hsorted : dates.Sorted (· < ·)) :
    (∀ t ∈ sortByPriority (tasks.filter (fun t => t.due_date.isSome)), ∀ due,
      t.due_date = some due →
        t ∈ (tasksPerDay dates today tasks).getD (assignedIndex dates today due) []) ∧
    (∀ due, (due ≤ today → assignedIndex dates today due = 0) ∧
      (today < due →
        ((∃ d ∈ dates, d ≤ due) →
          dates.getD (assignedIndex dates today due) 0 ≤ due ∧
          ∀ j, j < dates.length → dates.getD j 0 ≤ due →
            dates.getD j 0 ≤ dates.getD (assignedIndex dates today due) 0) ∧
        ((∀ d ∈ dates, due < d) → assignedIndex dates today due = 0))) ∧
    (∀ i, i < (sortByPriority (tasks.filter (fun t => !t.due_date.isSome))).length →
      (sortByPriority (tasks.filter (fun t => !t.due_date.isSome))).getD i dTask
        ∈ (tasksPerDay dates today tasks).getD (i % dates.length) []) := by
  have hpos : 0 < dates.length := List.length_pos.mpr hne
  have hb0len : (dates.map (fun _ => ([] : List Task))).length = dates.length := by
    rw [List.length_map]
  have hpre : tasksPerDayPre dates today tasks
      = distributeNoDue dates.length 0
          (distributeDue dates today (dates.map (fun _ => []))
            (sortByPriority (tasks.filter (fun t => t.due_date.isSome))))
          (sortByPriority (tasks.filter (fun t => !t.due_date.isSome))) := rfl
  have hb1len : (distributeDue dates today (dates.map (fun _ => []))
      (sortByPriority (tasks.filter (fun t => t.due_date.isSome)))).length
        = dates.length := by
    rw [distributeDue_length, hb0len]
  have hprelen : (tasksPerDayPre dates today tasks).length = dates.length := by
    rw [hpre, distributeNoDue_length, hb1len]
  have hfinal : ∀ k, k < dates.length → ∀ x : Task,
      x ∈ (tasksPerDayPre dates today tasks).getD k [] →
      x ∈ (tasksPerDay dates today tasks).getD k [] := by
    intro k hk x hx
    rw [tasksPerDay, getD_map_of_lt sortByPriority _ (by rw [hprelen]; exact hk)
      [] []]
    exact mem_sortByRank.mpr hx
  refine ⟨?_, ?_, ?_⟩
  · intro t ht due hdue
    have hidx := assignedIndex_lt today due hne
    have hmem1 := distributeDue_mem dates today
      (sortByPriority (tasks.filter (fun t => t.due_date.isSome)))
      (dates.map (fun _ => []))
      (fun u => by rw [hb0len]; exact assignedIndex_lt _ _ hne) t ht
    rw [hdue] at hmem1
    have hmem2 : t ∈ (tasksPerDayPre dates today tasks).getD
        (assignedIndex dates today due) [] := by
      rw [hpre]
      exact distributeNoDue_mono dates.length _ 0 _ _ t (by
        simpa using hmem1)
    exact hfinal _ hidx t hmem2
  · intro due
    constructor
    · intro h
      rw [assignedIndex, if_pos h]
    · intro hlt
      constructor
      · intro ⟨d, hd, hdle⟩
        cases hfind : findLatestLEAux dates due dates.length with
        | none =>
          obtain ⟨⟨j, hj⟩, rfl⟩ := List.mem_iff_get.mp hd
          have := findLatestLEAux_none hfind j hj
          rw [getD_eq_get dates 0 hj] at this
          omega
        | some k =>
          obtain ⟨hk, hkle, hall⟩ := findLatestLEAux_some hfind
          have hidx : assignedIndex dates today due = k := by
            rw [assignedIndex, if_neg (by omega), hfind]
            rfl
          rw [hidx]
          refine ⟨hkle, ?_⟩
          intro j hj hjle
          have hjk : j ≤ k := by
            by_contra hgt
            have := hall j (by omega) hj
            omega
          exact sorted_getD_mono hsorted hj hk hjk
      · intro hall_gt
        cases hfind : findLatestLEAux dates due dates.length with
        | some k =>
          obtain ⟨hk, hkle, _⟩ := findLatestLEAux_some hfind
          have hmem : dates.getD k 0 ∈ dates := getD_mem_of_lt hk
          have := hall_gt _ hmem
          omega
        | none =>
          rw [assignedIndex, if_neg (by omega), hfind]
          rfl
  · intro i hi
    have hmem1 := distributeNoDue_mem dates.length hpos
      (sortByPriority (tasks.filter (fun t => !t.due_date.isSome))) 0
      (distributeDue dates today (dates.map (fun _ => []))
        (sortByPriority (tasks.filter (fun t => t.due_date.isSome))))
      hb1len i hi
    rw [Nat.zero_add] at hmem1
    have hmod : i % dates.length < dates.length := Nat.mod_lt i hpos
    refine hfinal _ hmod _ ?_
    rw [hpre]
    exact hmem1


/-- C2 witness: with remaining days 100 and 101 and today 100, the task due
today is assigned index 0 and lands in bucket 0. -/
theorem claim_C2_witness :
    assignedIndex [100, 101] 100 100 = 0 ∧
    highDueTask ∈ (tasksPerDay [100, 101] 100 [highDueTask]).getD
      (assignedIndex [100, 101] 100 100) [] := by
  have h := claim_C2 [100, 101] 100 [highDueTask] (by decide) (by decide)
  exact ⟨(h.2.1 100).1 (le_refl 100), h.1 highDueTask (by decide) 100 (by decide)⟩

end Crestview
